import Mathlib

/-!
Verification of the static RAM-cost analyzer in `src/Script/RamCalculations.ts`
(bitburner). The analyzer parses a script and its imports, walks the call
graph from `main`, and charges every unresolved callee against a host-supplied
cost table.

Shallow embedding notes.
* JavaScript numbers are modelled by `ℤ` (kernel-computable; every claim
  below is about the structure of sums and comparisons, not about particular
  fractional host values, and the host's fractional costs are representable
  after scaling).  A cost slot can also hold the JavaScript value
  `undefined` (a failed top-level lookup) or a non-numeric object (a
  sub-table reached by a bare name), hence `JsNum` below.
* The acorn AST front end, the host path-equality predicate
  `areImportsEquals` (from `Terminal/DirectoryHelpers`, not under `src/`), the
  dynamic URL import, the cost-table contents (`RamCosts`) and the numeric
  constants (`RamCostConstants`, both from `Netscript/RamCostGenerator`, not
  under `src/`) are external collaborators; they are passed in as explicit
  parameters (`Collaborators`).
* The two unbounded loops (`parseAll`, `findAllCalledFunctions`) are embedded
  with an explicit fuel parameter; returning `none` models non-termination
  within the given fuel.  Termination is then a theorem: some fuel suffices.
-/

/-- A fully qualified reference to a declaration or call site.  The source
field `namespace` is renamed `nspace` because `namespace` is a Lean keyword.
Structural equality of all three fields models lodash `_.isEqual`. -/
structure DefinedFunction where
  name : String
  nspace : String
  filePath : String
deriving DecidableEq, Repr

/-- One record of `importedModules`: the import specifier string, the local
alias of a namespace-style import (the source field is called `alias`, a
reserved word in Lean), and the imported names (`["*"]` for a namespace
import). -/
structure ImportedModule where
  filePath : String
  aliasName : String
  imports : List String
deriving DecidableEq, Repr

/-- One declared function or class together with the calls its body makes. -/
structure FunctionTreeNode where
  fn : DefinedFunction
  calledFunctions : List DefinedFunction
deriving DecidableEq, Repr

/-- The parse result of one source file. -/
structure ParsedModule where
  filePath : String
  importedModules : List ImportedModule
  functionTree : List FunctionTreeNode
deriving DecidableEq, Repr

/-- The `type` field of a `RamUsageEntry`. -/
inductive RamEntryType
  | ns
  | dom
  | fn
  | misc
deriving DecidableEq, Repr

/-- A JavaScript numeric slot as it flows through the cost reducer: a
number, the value `undefined` (left by a failed top-level table lookup;
lodash `_.sum` skips it), or a non-numeric object (a sub-table object picked
up by a bare-name lookup; adding it turns the running total into a string,
so the total is permanently non-numeric). -/
inductive JsNum
  | num (q : ℤ)
  | undefVal
  | objVal
deriving DecidableEq, Repr

/-- One line of the cost breakdown. -/
structure RamUsageEntry where
  type : RamEntryType
  name : String
  cost : JsNum
deriving DecidableEq, Repr

/-- The overall result: total cost, and the per-API entries on success
(`none` models the absent `entries` field of the error return). -/
structure RamCalculation where
  cost : JsNum
  entries : Option (List RamUsageEntry)
deriving DecidableEq, Repr

/-- Modelled from the spec: the error codes of `RamCalculationErrorCodes.ts`
(not under `src/`) are "small negative integers agreed with the host". -/
def RamCalculationErrorCode.SyntaxError : Int := -1

/-- Modelled from the spec: the `ImportError` member of the error-code enum. -/
def RamCalculationErrorCode.ImportError : Int := -2

/-- Modelled from the spec: the `URLImportError` member of the error-code
enum. -/
def RamCalculationErrorCode.URLImportError : Int := -3

/-- A value thrown somewhere in the pipeline: the acorn `SyntaxError` (which
carries no `code` field), the internal `RamCalculationException` (which
carries its `code`), or a `TypeError` from reading a property of `undefined`
(no `code` field either). -/
inductive ErrVal
  | syntaxError
  | ramException (code : Int) (message : String)
  | typeError
deriving DecidableEq, Repr

/-- The `code` field of a thrown value, when it has one (`error?.code`). -/
def ErrVal.codeField : ErrVal → Option Int
  | .ramException c _ => some c
  | _ => none

/-- Decidable equality for `Except` results, used to evaluate concrete runs. -/
instance {e a : Type} [DecidableEq e] [DecidableEq a] : DecidableEq (Except e a) := fun x y =>
  match x, y with
  | .error u, .error v =>
    if h : u = v then .isTrue (congrArg Except.error h)
    else .isFalse (fun hc => h (Except.error.inj hc))
  | .ok u, .ok v =>
    if h : u = v then .isTrue (congrArg Except.ok h)
    else .isFalse (fun hc => h (Except.ok.inj hc))
  | .error _, .ok _ => .isFalse (fun hc => Except.noConfusion hc)
  | .ok _, .error _ => .isFalse (fun hc => Except.noConfusion hc)

/-- A leaf of the cost table: a plain number or a unary function of the
player state (singularity-style entries). -/
inductive RamCostLeaf (P : Type)
  | num (c : ℤ)
  | pfn (f : P → ℤ)

/-- A top-level cost-table value: a leaf, or a nested sub-API table. -/
inductive RamCostEntry (P : Type)
  | leaf (v : RamCostLeaf P)
  | sub (m : List (String × RamCostLeaf P))

/-- Modelled from the spec: `RamCosts` (from `Netscript/RamCostGenerator`,
not under `src/`) is a two-level mapping from identifiers and sub-API names
to numbers, player functions, or nested tables. -/
abbrev RamCostTable (P : Type) := List (String × RamCostEntry P)

/-- Modelled from the spec: the numeric constants of
`Netscript/RamCostGenerator` (not under `src/`) used by the cost reducer. -/
structure RamCostConstants where
  ScriptBaseRamCost : ℤ
  ScriptHacknetNodesRamCost : ℤ
  ScriptDomRamCost : ℤ
  ScriptCorporationRamCost : ℤ

/-- JavaScript property lookup in a string-keyed object (first match). -/
def lookupStr {α : Type} (t : List (String × α)) (k : String) : Option α :=
  (t.find? (fun kv => kv.1 == k)).map (fun kv => kv.2)

/-- One accumulation step of lodash `baseSum`: `undefined` addends are
skipped; adding an object to anything makes the total non-numeric. -/
def lodashSumStep (result current : JsNum) : JsNum :=
  match current with
  | .undefVal => result
  | .num b =>
    match result with
    | .undefVal => .num b
    | .num a => .num (a + b)
    | .objVal => .objVal
  | .objVal => .objVal

/-- lodash `_.sum`: `0` on the empty list, otherwise a left fold of
`lodashSumStep` starting from `undefined`. -/
def lodashSum (l : List JsNum) : JsNum :=
  match l with
  | [] => .num 0
  | _ => l.foldl lodashSumStep .undefVal

/-- Structural worker for `uniqWith`; the first argument is fuel, always at
least the list length, so the `0` branch for a non-empty list is never
reached. -/
def uniqWithAux {α : Type} [DecidableEq α] : Nat → List α → List α
  | _, [] => []
  | 0, _ :: _ => []
  | Nat.succ n, a :: l => a :: uniqWithAux n (l.filter (fun b => !(b == a)))

/-- lodash `_.uniqWith(·, _.isEqual)` / `_.uniq`: keep the first occurrence
of every element under structural equality. -/
def uniqWith {α : Type} [DecidableEq α] (l : List α) : List α :=
  uniqWithAux l.length l

/-- Structural worker for `splitOnDot`: walk the characters, cutting at
every dot; the accumulator holds the current segment reversed. -/
def splitOnDotAux : List Char → List Char → List String
  | [], acc => [String.mk acc.reverse]
  | c :: rest, acc =>
    if c = '.' then String.mk acc.reverse :: splitOnDotAux rest []
    else splitOnDotAux rest (c :: acc)

/-- JavaScript `namespace.split(".")`: never empty, `[""]` on the empty
string. -/
def splitOnDot (s : String) : List String :=
  splitOnDotAux s.data []

/-- JavaScript `String.prototype.startsWith`, via character-list prefixes. -/
def jsStartsWith (s pre : String) : Bool :=
  pre.data.isPrefixOf s.data

/-- The fixed special-namespace entries checked before the generic lookup. -/
def specialKeyChecks (consts : RamCostConstants) : List RamUsageEntry :=
  [ { type := .ns, cost := .num consts.ScriptHacknetNodesRamCost, name := "ns.hacknet" },
    { type := .dom, cost := .num consts.ScriptDomRamCost, name := "document" },
    { type := .dom, cost := .num consts.ScriptDomRamCost, name := "window" },
    { type := .ns, cost := .num consts.ScriptCorporationRamCost, name := "ns.corporation" } ]

/-- Evaluate a cost-table leaf: `typeof cost === "function"` means invoking
it on the player, otherwise the value is the cost. -/
def RamCostLeaf.eval {P : Type} (player : P) : RamCostLeaf P → ℤ
  | .num c => c
  | .pfn f => f player

/-- The body of the `uniqueFunctions.map` in `calculateRamCost`: build one
`RamUsageEntry` for one unresolved call.  A dotted namespace whose last
segment is missing from the table throws a `TypeError`
(`RamCosts[libPart][fn.name]` reads a property of `undefined`); a bare name
that is missing leaves an `undefined` cost; a bare name that hits a sub-table
leaves the object itself as the cost. -/
def entryFor {P : Type} (consts : RamCostConstants) (RamCosts : RamCostTable P)
    (player : P) (fn : DefinedFunction) : Except ErrVal RamUsageEntry :=
  match (specialKeyChecks consts).find? (fun sk => fn.nspace == sk.name) with
  | some specialCost => .ok specialCost
  | none =>
    if (splitOnDot fn.nspace).length > 1 then
      match lookupStr RamCosts ((splitOnDot fn.nspace).getLastD "") with
      | none => .error .typeError
      | some (.sub m) =>
        .ok { type := .ns, name := fn.name,
              cost := .num (((lookupStr m fn.name).getD (.num 0)).eval player) }
      | some (.leaf _) =>
        .ok { type := .ns, name := fn.name, cost := .num ((0 : ℤ)) }
    else
      match lookupStr RamCosts fn.name with
      | none => .ok { type := .ns, name := fn.name, cost := .undefVal }
      | some (.leaf v) => .ok { type := .ns, name := fn.name, cost := .num (v.eval player) }
      | some (.sub _) => .ok { type := .ns, name := fn.name, cost := .objVal }

/-- A JavaScript `.map` whose body can throw: the first thrown value aborts
the whole map. -/
def mapThrow {α β : Type} (f : α → Except ErrVal β) : List α → Except ErrVal (List β)
  | [] => .ok []
  | a :: l =>
    match f a with
    | .error e => .error e
    | .ok b =>
      match mapThrow f l with
      | .error e => .error e
      | .ok bs => .ok (b :: bs)

/-- The cost reducer `calculateRamCost`: deduplicate, build one entry per
unique unresolved call (a thrown `TypeError` aborts the map), prepend the
base-cost entry for the sum, and return the total together with the per-API
entries (the source returns the variable `entries`, not `entriesWithBase`). -/
def calculateRamCost {P : Type} (consts : RamCostConstants) (RamCosts : RamCostTable P)
    (player : P) (functions : List DefinedFunction) : Except ErrVal RamCalculation :=
  match mapThrow (entryFor consts RamCosts player) (uniqWith functions) with
  | .error e => .error e
  | .ok entries =>
    let baseCost : RamUsageEntry :=
      { type := .misc, name := "baseCost", cost := .num consts.ScriptBaseRamCost }
    let entriesWithBase := baseCost :: entries
    .ok { cost := lodashSum (entriesWithBase.map (fun r => r.cost)), entries := some entries }

/-- A specifier node of an acorn `ImportDeclaration`: a default specifier
(`import X`), a named specifier (`import {a}`; only this kind carries an
`imported` sub-node), or a namespace specifier (`import * as X`). -/
inductive ImportSpecifierNode
  | defaultSpec (localName : String)
  | namedSpec (importedName : String) (localName : String)
  | namespaceSpec (localName : String)
deriving DecidableEq, Repr

/-- The `imported.name` of a specifier, absent unless the specifier is a
named one. -/
def ImportSpecifierNode.importedName : ImportSpecifierNode → Option String
  | .namedSpec i _ => some i
  | _ => none

/-- The `local.name` of a specifier. -/
def ImportSpecifierNode.localName : ImportSpecifierNode → String
  | .defaultSpec l => l
  | .namedSpec _ l => l
  | .namespaceSpec l => l

/-- The `parseImport` visitor of `NetscriptFileParser.topLevelParsing`:
classify by whether the first specifier carries an `imported` sub-node.
Namespace shape records the first specifier's local name as alias and
`["*"]`; named shape records an empty alias and every specifier's imported
name.  (In acorn output a named first specifier implies all specifiers are
named, so the `getD ""` default in the named branch is never exercised.) -/
def parseImport (sourceValue : String) (specifiers : List ImportSpecifierNode) :
    ImportedModule :=
  let isImportAll := !(((specifiers.head?).bind ImportSpecifierNode.importedName).isSome)
  if isImportAll then
    { filePath := sourceValue,
      aliasName := ((specifiers.head?).map ImportSpecifierNode.localName).getD "",
      imports := ["*"] }
  else
    { filePath := sourceValue,
      aliasName := "",
      imports := specifiers.map (fun n => (n.importedName).getD "") }

/-- Modelled from the spec: the acorn AST front end is an external
collaborator.  The specifier list it produces for `import X from "lib"`. -/
def astDefaultImport : List ImportSpecifierNode := [.defaultSpec "X"]

/-- Modelled from the spec: the specifier list acorn produces for
`import {a, b} from "lib"`. -/
def astNamedImport : List ImportSpecifierNode := [.namedSpec "a" "a", .namedSpec "b" "b"]

/-- Modelled from the spec: the specifier list acorn produces for
`import * as X from "lib"`. -/
def astNamespaceImport : List ImportSpecifierNode := [.namespaceSpec "X"]

/-- A call recorded inside one function body, before the containing file's
path is stamped on. -/
structure RawCalledFunction where
  name : String
  nspace : String
deriving DecidableEq, Repr

/-- A declared function or class with the calls inside its body, before the
file path is stamped on (the parser always passes `""` as the declared
namespace). -/
structure RawFunctionNode where
  name : String
  calls : List RawCalledFunction
deriving DecidableEq, Repr

/-- What the acorn walk of one file yields before path stamping: the import
records and the function nodes. -/
structure RawParsedFile where
  importedModules : List ImportedModule
  functionNodes : List RawFunctionNode
deriving DecidableEq, Repr

/-- An auxiliary script: a record with a `filename` and a `code` field. -/
structure Script where
  filename : String
  code : String
deriving DecidableEq, Repr

/-- The external collaborators of the analyzer, passed as data:
`parseScriptAst` abstracts acorn plus the AST walkers of
`NetscriptFileParser` (an `Except.error` is acorn's thrown `SyntaxError`);
`areImportsEquals` is the host path-equality predicate from
`Terminal/DirectoryHelpers` (not under `src/`); `urlImport` abstracts the
dynamic `import()` plus function-source concatenation of
`resolveExternalModule` (`none` is any network or evaluation failure);
`consts` and `RamCosts` are the cost data from `Netscript/RamCostGenerator`
(not under `src/`). -/
structure Collaborators (P : Type) where
  parseScriptAst : String → Except Unit RawParsedFile
  areImportsEquals : String → String → Bool
  urlImport : String → Option String
  consts : RamCostConstants
  RamCosts : RamCostTable P

/-- `NetscriptFileParser(filePath).parseScript(code)`: run the front end and
stamp the parser's `filePath` onto every declared function and every recorded
call, exactly as `TopLevelParseState` and `WithinFunctionParseState` do. -/
def parseScript {P : Type} (C : Collaborators P) (filePath : String) (code : String) :
    Except ErrVal ParsedModule :=
  match C.parseScriptAst code with
  | .error _ => .error .syntaxError
  | .ok raw =>
    .ok { filePath := filePath,
          importedModules := raw.importedModules,
          functionTree := raw.functionNodes.map (fun n =>
            { fn := { name := n.name, nspace := "", filePath := filePath },
              calledFunctions := n.calls.map (fun c =>
                { name := c.name, nspace := c.nspace, filePath := filePath }) }) }

/-- `InvocationTreeBuilder.resolveExternalModule`: fetch and flatten a remote
module; any failure is rethrown as a `RamCalculationException` with the
`URLImportError` code. -/
def resolveExternalModule {P : Type} (C : Collaborators P) (moduleUrl : String) :
    Except ErrVal String :=
  match C.urlImport moduleUrl with
  | some code => .ok code
  | none => .error (.ramException RamCalculationErrorCode.URLImportError
      ("Error dynamically importing module from " ++ moduleUrl ++ " for RAM calculations"))

/-- The loop body's `normalizedPath` local: strip one leading `"./"`. -/
def normalizePath (pathToParse : String) : String :=
  if jsStartsWith pathToParse "./" then pathToParse.drop 2 else pathToParse

/-- The loop body's `code` local: resolve URL specifiers through
`resolveExternalModule` and others through the script set; a specifier with
no code at all throws `ImportError` naming the normalized path (the
`code==null` check in the source). -/
def resolveImportCode {P : Type} (C : Collaborators P) (otherScripts : List Script)
    (pathToParse normalizedPath : String) : Except ErrVal String :=
  if jsStartsWith pathToParse "https://" || jsStartsWith pathToParse "http://" then
    resolveExternalModule C pathToParse
  else
    match otherScripts.find? (fun s => C.areImportsEquals s.filename normalizedPath) with
    | some s => .ok s.code
    | none => .error (.ramException RamCalculationErrorCode.ImportError
        ("Imported module " ++ normalizedPath ++ " can't be found"))

/-- The `while (modulesToParse.length > 0)` loop of
`InvocationTreeBuilder.parseAll`, with explicit fuel (`none` = fuel ran out
before the worklist emptied).  Normalizes the popped specifier, skips
specifiers whose normalized path was already parsed, resolves the code,
parses it under the normalized path, and appends the new module's import
paths to the worklist. -/
def parseAllLoop {P : Type} (C : Collaborators P) (otherScripts : List Script) :
    Nat → List ParsedModule → List String → Option (Except ErrVal (List ParsedModule))
  | _, parsedModules, [] => some (.ok parsedModules)
  | 0, _, _ :: _ => none
  | Nat.succ n, parsedModules, pathToParse :: rest =>
    if (parsedModules.map (fun m => m.filePath)).contains (normalizePath pathToParse) then
      parseAllLoop C otherScripts n parsedModules rest
    else
      match resolveImportCode C otherScripts pathToParse (normalizePath pathToParse) with
      | .error e => some (.error e)
      | .ok c =>
        match parseScript C (normalizePath pathToParse) c with
        | .error e => some (.error e)
        | .ok result =>
          parseAllLoop C otherScripts n (parsedModules ++ [result])
            (rest ++ result.importedModules.map (fun m => m.filePath))

/-- `InvocationTreeBuilder.parseAll`: parse the entry point with file path
`""`, seed the worklist with its deduplicated import specifiers, and run the
loop. -/
def parseAll {P : Type} (C : Collaborators P) (otherScripts : List Script)
    (fuel : Nat) (initialCode : String) : Option (Except ErrVal (List ParsedModule)) :=
  match parseScript C "" initialCode with
  | .error e => some (.error e)
  | .ok result =>
    parseAllLoop C otherScripts fuel [result]
      (uniqWith (result.importedModules.map (fun m => m.filePath)))

/-- The output of `findAllCalledFunctions`. -/
structure FunctionCalls where
  resolvedFunctions : List DefinedFunction
  unresolvedFunctions : List DefinedFunction
deriving DecidableEq, Repr

/-- The state of the worklist traversal.  `enqueued` is a ghost log that
records every function ever pushed onto `toProcess` (including the initial
entry point); the algorithm never reads it. -/
structure FACFState where
  resolved : List DefinedFunction
  unresolved : List DefinedFunction
  toProcess : List DefinedFunction
  enqueued : List DefinedFunction
deriving DecidableEq, Repr

/-- `isAlreadyProcessed`: membership in `resolvedFunctions` or
`unresolvedFunctions` under structural equality. -/
def isAlreadyProcessed (s : FACFState) (newFn : DefinedFunction) : Bool :=
  s.resolved.any (fun cf => cf == newFn) || s.unresolved.any (fun cf => cf == newFn)

/-- Locate the module a call refers to (`modules.find(m => m.filePath ==
current.filePath)`). -/
def lookupModule (modules : List ParsedModule) (current : DefinedFunction) :
    Option ParsedModule :=
  modules.find? (fun m => m.filePath == current.filePath)

/-- Resolve a call to a graph node: first a structurally equal declaration in
its own module, else through a matching import to a node with the same name
and empty namespace in the imported module. -/
def lookupNode (modules : List ParsedModule) (currentModule : ParsedModule)
    (current : DefinedFunction) : Option FunctionTreeNode :=
  match currentModule.functionTree.find? (fun ft => ft.fn == current) with
  | some ft => some ft
  | none =>
    match currentModule.importedModules.find? (fun m =>
        m.aliasName == current.nspace &&
        (m.imports.contains current.name || m.imports.contains "*")) with
    | none => none
    | some importReference =>
      match modules.find? (fun m => m.filePath == importReference.filePath) with
      | none => none
      | some importModule =>
        importModule.functionTree.find? (fun ft =>
          ft.fn.name == current.name && ft.fn.nspace == "")

/-- One iteration of the `while (toProcess.length > 0)` loop body, applied to
the popped element `current` and the state whose `toProcess` is already the
remaining queue: drop if no module matches, otherwise classify as resolved
(recording it and enqueueing its not-yet-classified dependencies) or as
unresolved. -/
def facfStep (modules : List ParsedModule) (current : DefinedFunction)
    (s : FACFState) : FACFState :=
  match lookupModule modules current with
  | none => s
  | some currentModule =>
    match lookupNode modules currentModule current with
    | some currentFn =>
      let newDependencies :=
        currentFn.calledFunctions.filter (fun d => !(isAlreadyProcessed s d))
      { s with resolved := s.resolved ++ [current],
               toProcess := s.toProcess ++ newDependencies,
               enqueued := s.enqueued ++ newDependencies }
    | none => { s with unresolved := s.unresolved ++ [current] }

/-- The worklist loop with explicit fuel (`none` = fuel ran out while the
queue was still non-empty). -/
def facfRun (modules : List ParsedModule) : Nat → FACFState → Option FACFState
  | 0, s =>
    match s.toProcess with
    | [] => some s
    | _ :: _ => none
  | Nat.succ n, s =>
    match s.toProcess with
    | [] => some s
    | current :: rest =>
      facfRun modules n (facfStep modules current { s with toProcess := rest })

/-- The default entry point of `findAllCalledFunctions`. -/
def defaultEntryPoint : DefinedFunction := { name := "main", nspace := "", filePath := "" }

/-- The initial traversal state: empty classifications, the entry point
enqueued once. -/
def initState (entryPoint : DefinedFunction) : FACFState :=
  { resolved := [], unresolved := [], toProcess := [entryPoint], enqueued := [entryPoint] }

/-- `findAllCalledFunctions`, fuelled. -/
def findAllCalledFunctions (modules : List ParsedModule)
    (entryPoint : DefinedFunction := defaultEntryPoint) (fuel : Nat) :
    Option FunctionCalls :=
  (facfRun modules fuel (initState entryPoint)).map (fun s =>
    { resolvedFunctions := s.resolved, unresolvedFunctions := s.unresolved })

/-- The `try` block of `calculateRamUsage`: parse everything, walk the call
graph, and charge the unresolved functions.  `none` = one of the fuelled
loops ran out of fuel; `some (.error e)` = the value `e` was thrown. -/
def calculateRamUsageCore {P : Type} (C : Collaborators P) (fuelParse fuelWalk : Nat)
    (player : P) (codeCopy : String) (otherScripts : List Script) :
    Option (Except ErrVal RamCalculation) :=
  match parseAll C otherScripts fuelParse codeCopy with
  | none => none
  | some (.error e) => some (.error e)
  | some (.ok parseResults) =>
    match findAllCalledFunctions parseResults defaultEntryPoint fuelWalk with
    | none => none
    | some allCalledFunctions =>
      some (calculateRamCost C.consts C.RamCosts player allCalledFunctions.unresolvedFunctions)

/-- The top-level `calculateRamUsage`: run the pipeline and catch any thrown
value, returning its `code` field — or the `SyntaxError` code when it has
none — as the cost, with no `entries`. -/
def calculateRamUsage {P : Type} (C : Collaborators P) (fuelParse fuelWalk : Nat)
    (player : P) (codeCopy : String) (otherScripts : List Script) :
    Option RamCalculation :=
  (calculateRamUsageCore C fuelParse fuelWalk player codeCopy otherScripts).map (fun res =>
    match res with
    | .ok r => r
    | .error e =>
      { cost := .num ((e.codeField).getD RamCalculationErrorCode.SyntaxError),
        entries := none })

/-- The classified set: `resolvedFunctions` followed by `unresolvedFunctions`. -/
def processedList (s : FACFState) : List DefinedFunction :=
  s.resolved ++ s.unresolved

/-- Every call-graph edge target in the module list; together with the entry
point this bounds everything the traversal can ever enqueue. -/
def allDeps (modules : List ParsedModule) : List DefinedFunction :=
  modules.flatMap (fun m => m.functionTree.flatMap (fun ft => ft.calledFunctions))

/-- The finite universe of enqueueable functions. -/
def univFinset (modules : List ParsedModule) (entryPoint : DefinedFunction) :
    Finset DefinedFunction :=
  insert entryPoint (allDeps modules).toFinset

/-- An upper bound on how many dependencies one classified node can enqueue. -/
def maxDeps (modules : List ParsedModule) : Nat :=
  ((modules.flatMap (fun m => m.functionTree)).map
    (fun ft => ft.calledFunctions.length)).foldr max 0

/-- Termination measure, first component: universe elements not yet
classified. -/
def comp1 (modules : List ParsedModule) (entryPoint : DefinedFunction)
    (s : FACFState) : Nat :=
  (univFinset modules entryPoint \ (processedList s).toFinset).card

/-- Termination measure, second component: queue entries that are already
classified. -/
def comp2 (s : FACFState) : Nat :=
  s.toProcess.countP (fun x => isAlreadyProcessed s x)

/-- Termination measure, third component: queue length. -/
def comp3 (s : FACFState) : Nat :=
  s.toProcess.length

/-- The combined inner termination measure. -/
def measure2 (modules : List ParsedModule) (s : FACFState) : Nat :=
  (maxDeps modules + 1) * comp2 s + comp3 s

/-- Traversal invariant: every classified function's module lookup succeeds
(so a function whose module lookup fails can never be classified). -/
def StateInv (modules : List ParsedModule) (s : FACFState) : Prop :=
  ∀ x ∈ processedList s, (lookupModule modules x).isSome = true

/-- Traversal invariant: everything on the queue lies in the finite
universe. -/
def QueueInv (modules : List ParsedModule) (entryPoint : DefinedFunction)
    (s : FACFState) : Prop :=
  ∀ x ∈ s.toProcess, x ∈ univFinset modules entryPoint

/-- Traversal invariant: each resolved function classifies (module found,
node found) and each unresolved one fails to (module found, node not
found).  Classification is a pure function of the module list, so the two
output lists cannot share an element. -/
def ClassInv (modules : List ParsedModule) (s : FACFState) : Prop :=
  (∀ x ∈ s.resolved, ∃ m, lookupModule modules x = some m ∧
      (lookupNode modules m x).isSome = true) ∧
  (∀ x ∈ s.unresolved, ∃ m, lookupModule modules x = some m ∧
      lookupNode modules m x = none)

/-- A nonnegative cost-table leaf (a player-dependent entry must be
nonnegative at every player state). -/
def LeafNonneg {P : Type} : RamCostLeaf P → Prop
  | .num c => 0 ≤ c
  | .pfn f => ∀ p, 0 ≤ f p

/-- A nonnegative top-level cost-table value. -/
def EntryNonneg {P : Type} : RamCostEntry P → Prop
  | .leaf v => LeafNonneg v
  | .sub m => ∀ kv ∈ m, LeafNonneg kv.2

/-- Modelled from the spec: the host cost table assigns (nonnegative) RAM
costs; every value in the two-level mapping is nonnegative. -/
def TableNonneg {P : Type} (t : RamCostTable P) : Prop :=
  ∀ kv ∈ t, EntryNonneg kv.2

/-- Modelled from the spec: the host cost constants are nonnegative RAM
amounts. -/
def ConstsNonneg (c : RamCostConstants) : Prop :=
  0 ≤ c.ScriptBaseRamCost ∧ 0 ≤ c.ScriptHacknetNodesRamCost ∧
  0 ≤ c.ScriptDomRamCost ∧ 0 ≤ c.ScriptCorporationRamCost

/-- The code the catch clause reports for a thrown value, written out by
kind: a `RamCalculationException` reports its own code, everything else
(acorn's `SyntaxError`, a `TypeError`) reports the `SyntaxError` code. -/
def catchCode : ErrVal → Int
  | .ramException c _ => c
  | .syntaxError => RamCalculationErrorCode.SyntaxError
  | .typeError => RamCalculationErrorCode.SyntaxError

theorem uniqWithAux_nil {α : Type} [DecidableEq α] (n : Nat) :
    uniqWithAux n ([] : List α) = [] := by
  cases n <;> rfl

theorem uniqWithAux_congr {α : Type} [DecidableEq α] :
    ∀ (n m : Nat) (l : List α), l.length ≤ n → l.length ≤ m →
      uniqWithAux n l = uniqWithAux m l := by
  intro n
  induction n with
  | zero =>
    intro m l hn _
    rw [Nat.le_zero, List.length_eq_zero] at hn
    subst hn
    rw [uniqWithAux_nil, uniqWithAux_nil]
  | succ n ih =>
    intro m l hn hm
    match l, m with
    | [], _ => rw [uniqWithAux_nil, uniqWithAux_nil]
    | a :: t, 0 => simp at hm
    | a :: t, Nat.succ m =>
      simp only [uniqWithAux]
      have hf := List.length_filter_le (fun b => !(b == a)) t
      simp only [List.length_cons, Nat.succ_le_succ_iff] at hn hm
      rw [ih _ _ (le_trans hf hn) (le_trans hf hm)]

theorem uniqWith_nil {α : Type} [DecidableEq α] : uniqWith ([] : List α) = [] := rfl

theorem uniqWith_cons {α : Type} [DecidableEq α] (a : α) (l : List α) :
    uniqWith (a :: l) = a :: uniqWith (l.filter (fun b => !(b == a))) := by
  unfold uniqWith
  simp only [List.length_cons, uniqWithAux]
  exact congrArg (List.cons a)
    (uniqWithAux_congr _ _ _ (List.length_filter_le _ _) le_rfl)

theorem mem_uniqWith_aux {α : Type} [DecidableEq α] :
    ∀ (n : Nat) (l : List α), l.length ≤ n → ∀ x ∈ uniqWith l, x ∈ l := by
  intro n
  induction n with
  | zero =>
    intro l hl x hx
    rw [Nat.le_zero, List.length_eq_zero] at hl
    subst hl
    rw [uniqWith_nil] at hx
    simp at hx
  | succ n ih =>
    intro l hl x hx
    match l with
    | [] =>
      rw [uniqWith_nil] at hx
      simp at hx
    | a :: t =>
      rw [uniqWith_cons] at hx
      rcases List.mem_cons.mp hx with h | h
      · exact h ▸ List.mem_cons_self a t
      · have hlen : (t.filter (fun b => !(b == a))).length ≤ n := by
          have := List.length_filter_le (fun b => !(b == a)) t
          simp only [List.length_cons, Nat.succ_le_succ_iff] at hl
          omega
        exact List.mem_cons_of_mem a (List.mem_of_mem_filter (ih _ hlen x h))

theorem mem_uniqWith {α : Type} [DecidableEq α] {l : List α} {x : α}
    (h : x ∈ uniqWith l) : x ∈ l :=
  mem_uniqWith_aux l.length l le_rfl x h

theorem uniqWith_idem_aux {α : Type} [DecidableEq α] :
    ∀ (n : Nat) (l : List α), l.length ≤ n → uniqWith (uniqWith l) = uniqWith l := by
  intro n
  induction n with
  | zero =>
    intro l hl
    rw [Nat.le_zero, List.length_eq_zero] at hl
    subst hl
    simp [uniqWith_nil]
  | succ n ih =>
    intro l hl
    match l with
    | [] => simp [uniqWith_nil]
    | a :: t =>
      have hlen : (t.filter (fun b => !(b == a))).length ≤ n := by
        have := List.length_filter_le (fun b => !(b == a)) t
        simp only [List.length_cons, Nat.succ_le_succ_iff] at hl
        omega
      rw [uniqWith_cons, uniqWith_cons]
      have hfilt : (uniqWith (t.filter (fun b => !(b == a)))).filter (fun b => !(b == a))
          = uniqWith (t.filter (fun b => !(b == a))) := by
        apply List.filter_eq_self.mpr
        intro x hx
        have hx2 := mem_uniqWith hx
        rw [List.mem_filter] at hx2
        simpa using hx2.2
      rw [hfilt, ih _ hlen]

theorem uniqWith_idem {α : Type} [DecidableEq α] (l : List α) :
    uniqWith (uniqWith l) = uniqWith l :=
  uniqWith_idem_aux l.length l le_rfl

theorem filter_ne_replicate {α : Type} [DecidableEq α] (k : Nat) (a : α) :
    (List.replicate k a).filter (fun b => !(b == a)) = [] := by
  induction k with
  | zero => simp
  | succ k ih => simp [List.replicate_succ, ih]

theorem uniqWith_replicate {α : Type} [DecidableEq α] (k : Nat) (a : α) :
    uniqWith (List.replicate (k + 1) a) = [a] := by
  rw [List.replicate_succ, uniqWith_cons, filter_ne_replicate, uniqWith_nil]

theorem uniqWith_singleton {α : Type} [DecidableEq α] (a : α) :
    uniqWith [a] = [a] := by
  rw [uniqWith_cons]
  simp [uniqWith_nil]

/-- C8: parsing the three import forms yields exactly the specified
`ImportEntry` shapes — `import X from "lib"` a namespace-style record with
alias `X` and imports `["*"]`, `import {a, b} from "lib"` a named record
with alias `""` and imports `["a", "b"]`, `import * as X from "lib"` a
namespace-style record with alias `X` and imports `["*"]`, each with
`filePath = "lib"`. -/
theorem c8_import_round_trip :
    parseImport "lib" astDefaultImport
      = { filePath := "lib", aliasName := "X", imports := ["*"] } ∧
    parseImport "lib" astNamedImport
      = { filePath := "lib", aliasName := "", imports := ["a", "b"] } ∧
    parseImport "lib" astNamespaceImport
      = { filePath := "lib", aliasName := "X", imports := ["*"] } := by
  refine ⟨?_, ?_, ?_⟩ <;> rfl

/-- C2: the cost reducer charges a list of unresolved calls exactly as it
charges its deduplication (under structural equality), and a call repeated
`k + 1` times is charged exactly as a single occurrence. -/
theorem c2_deduplication {P : Type} (consts : RamCostConstants)
    (RamCosts : RamCostTable P) (player : P) (functions : List DefinedFunction)
    (fn : DefinedFunction) (k : Nat) :
    calculateRamCost consts RamCosts player functions
      = calculateRamCost consts RamCosts player (uniqWith functions) ∧
    calculateRamCost consts RamCosts player (List.replicate (k + 1) fn)
      = calculateRamCost consts RamCosts player [fn] := by
  constructor
  · simp only [calculateRamCost, uniqWith_idem]
  · simp only [calculateRamCost, uniqWith_replicate, uniqWith_singleton]

theorem mapThrow_ok_mem {α β : Type} {f : α → Except ErrVal β} :
    ∀ {l : List α} {l2 : List β}, mapThrow f l = .ok l2 → ∀ b ∈ l2, ∃ a ∈ l, f a = .ok b := by
  intro l
  induction l with
  | nil =>
    intro l2 h b hb
    simp only [mapThrow] at h
    cases h
    simp at hb
  | cons a t ih =>
    intro l2 h b hb
    simp only [mapThrow] at h
    cases hfa : f a with
    | error e => rw [hfa] at h; cases h
    | ok b0 =>
      rw [hfa] at h
      cases hmt : mapThrow f t with
      | error e => rw [hmt] at h; cases h
      | ok bs =>
        rw [hmt] at h
        cases h
        rcases List.mem_cons.mp hb with hb | hb
        · exact ⟨a, List.mem_cons_self a t, hb ▸ hfa⟩
        · obtain ⟨a2, ha2, hfa2⟩ := ih hmt b hb
          exact ⟨a2, List.mem_cons_of_mem a ha2, hfa2⟩

theorem entryFor_type {P : Type} {consts : RamCostConstants} {RamCosts : RamCostTable P}
    {player : P} {fn : DefinedFunction} {e : RamUsageEntry}
    (h : entryFor consts RamCosts player fn = .ok e) :
    e.type = RamEntryType.ns ∨ e.type = RamEntryType.dom := by
  unfold entryFor at h
  split at h
  · rename_i sk hsk
    cases h
    have hm := List.mem_of_find?_eq_some hsk
    simp only [specialKeyChecks, List.mem_cons, List.not_mem_nil, or_false] at hm
    rcases hm with h1 | h1 | h1 | h1 <;> subst h1 <;> simp
  · split at h
    · split at h
      · cases h
      · cases h; left; rfl
      · cases h; left; rfl
    · split at h
      · cases h; left; rfl
      · cases h; left; rfl
      · cases h; left; rfl

/-- C4 (amended): a successful calculation returns the per-API entries
without the base-cost entry (the source sums `entriesWithBase` but returns
`entries`), and the returned cost is the sum over the base-cost entry
prepended to the returned list; no returned entry is the base-cost entry
(none has type `misc`). -/
theorem c4_entries_and_sum {P : Type} (consts : RamCostConstants)
    (RamCosts : RamCostTable P) (player : P) (functions : List DefinedFunction)
    (r : RamCalculation)
    (h : calculateRamCost consts RamCosts player functions = .ok r) :
    ∃ es, r.entries = some es ∧
      r.cost = lodashSum ((({ type := .misc,
                              name := "baseCost",
                              cost := .num consts.ScriptBaseRamCost } : RamUsageEntry)
          :: es).map (fun e => e.cost)) ∧
      ∀ e ∈ es, e.type ≠ RamEntryType.misc := by
  unfold calculateRamCost at h
  cases hm : mapThrow (entryFor consts RamCosts player) (uniqWith functions) with
  | error e => rw [hm] at h; cases h
  | ok entries =>
    rw [hm] at h
    cases h
    refine ⟨entries, rfl, rfl, ?_⟩
    intro e he
    obtain ⟨a, _, hfa⟩ := mapThrow_ok_mem hm e he
    rcases entryFor_type hfa with h1 | h1 <;> simp [h1]

/-- C4 (counterexample): analyzing `export async function main(ns){}` (with
base cost 2) completes successfully with cost 2 but `entries = []` — the
base-cost entry is not part of the returned list, so the returned list is
not `[baseCost]` and the cost is not the sum over the returned list. -/
theorem c4_counterexample :
    calculateRamUsage
      { parseScriptAst := fun code =>
          if code == "export async function main(ns){}" then
            .ok { importedModules := [], functionNodes := [{ name := "main", calls := [] }] }
          else .error ()
        areImportsEquals := fun a b => a == b
        urlImport := fun _ => none
        consts := { ScriptBaseRamCost := 2, ScriptHacknetNodesRamCost := 4,
                    ScriptDomRamCost := 25, ScriptCorporationRamCost := 1024 }
        RamCosts := ([] : RamCostTable Unit) }
      1 2 () "export async function main(ns){}" []
      = some { cost := .num 2, entries := some [] } ∧
    ([] : List RamUsageEntry) ≠
      [{ type := .misc, name := "baseCost", cost := .num 2 }] ∧
    lodashSum (([] : List RamUsageEntry).map (fun e => e.cost)) ≠ .num 2 := by
  refine ⟨by decide, by decide, by decide⟩

/-- C4 (witness for the amended theorem): a concrete successful calculation
whose returned entries satisfy the amended description. -/
theorem c4_witness :
    (calculateRamCost
        { ScriptBaseRamCost := 2, ScriptHacknetNodesRamCost := 4,
          ScriptDomRamCost := 25, ScriptCorporationRamCost := 1024 }
        ([("hack", .leaf (.num 1))] : RamCostTable Unit) ()
        [{ name := "hack", nspace := "ns", filePath := "" }]
      = .ok { cost := .num 3,
              entries := some [{ type := .ns, name := "hack", cost := .num 1 }] }) ∧
    (∃ es, (some [({ type := .ns, name := "hack", cost := .num 1 } : RamUsageEntry)]
          = some es) ∧
      JsNum.num 3 = lodashSum ((({ type := .misc,
                                   name := "baseCost",
                                   cost := .num (2 : ℤ) } : RamUsageEntry)
          :: es).map (fun e => e.cost)) ∧
      ∀ e ∈ es, e.type ≠ RamEntryType.misc) :=
  ⟨by decide,
    c4_entries_and_sum
      { ScriptBaseRamCost := 2, ScriptHacknetNodesRamCost := 4,
        ScriptDomRamCost := 25, ScriptCorporationRamCost := 1024 }
      ([("hack", .leaf (.num 1))] : RamCostTable Unit) ()
      [{ name := "hack", nspace := "ns", filePath := "" }]
      { cost := .num 3, entries := some [{ type := .ns, name := "hack", cost := .num 1 }] }
      (by decide)⟩

/-- C5 (amended): for a non-special namespace, a dotted namespace whose
sub-API table exists but lacks the name contributes cost 0, and a bare name
absent from the top level contributes an undefined cost that the sum skips —
in both cases no error and a total equal to the base cost alone; but a
dotted namespace whose last segment is absent from the cost table throws a
`TypeError` instead of contributing 0. -/
theorem c5_lookup_defaults {P : Type} (consts : RamCostConstants)
    (RamCosts : RamCostTable P) (player : P) (fn : DefinedFunction)
    (hspecial : (specialKeyChecks consts).find? (fun sk => fn.nspace == sk.name) = none) :
    ((splitOnDot fn.nspace).length > 1 →
      ∀ m, lookupStr RamCosts ((splitOnDot fn.nspace).getLastD "") = some (.sub m) →
        lookupStr m fn.name = none →
        calculateRamCost consts RamCosts player [fn]
          = .ok { cost := .num consts.ScriptBaseRamCost,
                  entries := some [{ type := .ns, name := fn.name, cost := .num 0 }] }) ∧
    (¬ (splitOnDot fn.nspace).length > 1 →
      lookupStr RamCosts fn.name = none →
      calculateRamCost consts RamCosts player [fn]
        = .ok { cost := .num consts.ScriptBaseRamCost,
                entries := some [{ type := .ns, name := fn.name, cost := .undefVal }] }) ∧
    ((splitOnDot fn.nspace).length > 1 →
      lookupStr RamCosts ((splitOnDot fn.nspace).getLastD "") = none →
      calculateRamCost consts RamCosts player [fn] = .error .typeError) := by
  refine ⟨?_, ?_, ?_⟩
  · intro hlen m hsub hname
    simp only [List.getLastD_eq_getLast?] at hsub
    simp [calculateRamCost, uniqWith_singleton, mapThrow, entryFor, hspecial, hlen,
      hsub, hname, lodashSum, lodashSumStep, RamCostLeaf.eval]
  · intro hlen hname
    simp [calculateRamCost, uniqWith_singleton, mapThrow, entryFor, hspecial, hlen,
      hname, lodashSum, lodashSumStep]
  · intro hlen hsub
    simp only [List.getLastD_eq_getLast?] at hsub
    simp [calculateRamCost, uniqWith_singleton, mapThrow, entryFor, hspecial, hlen, hsub]

/-- C5 (counterexample): a call whose namespace `"a.b"` splits into two
segments while the cost table has no entry under `"b"` does not contribute
0 — the calculation throws a `TypeError` (reading `RamCosts["b"][name]` on
`undefined`). -/
theorem c5_counterexample :
    (splitOnDot "a.b").length > 1 ∧
    lookupStr ([] : RamCostTable Unit) ((splitOnDot "a.b").getLastD "") = none ∧
    calculateRamCost
      { ScriptBaseRamCost := 2, ScriptHacknetNodesRamCost := 4,
        ScriptDomRamCost := 25, ScriptCorporationRamCost := 1024 }
      ([] : RamCostTable Unit) ()
      [{ name := "baz", nspace := "a.b", filePath := "" }]
      = .error .typeError := by
  refine ⟨by decide, rfl, by decide⟩

/-- C5 (witness for the amended theorem): with the table
`[("stanek", {get: 2})]`, the call `ns.stanek.width` hits the sub-table but
not the name, so the total is the base cost alone and no error is raised. -/
theorem c5_witness :
    (splitOnDot "ns.stanek").length > 1 ∧
    calculateRamCost
      { ScriptBaseRamCost := 2, ScriptHacknetNodesRamCost := 4,
        ScriptDomRamCost := 25, ScriptCorporationRamCost := 1024 }
      ([("stanek", .sub [("get", .num 2)])] : RamCostTable Unit) ()
      [{ name := "width", nspace := "ns.stanek", filePath := "" }]
      = .ok { cost := .num 2,
              entries := some [{ type := .ns, name := "width", cost := .num 0 }] } :=
  ⟨by decide,
    (c5_lookup_defaults
      { ScriptBaseRamCost := 2, ScriptHacknetNodesRamCost := 4,
        ScriptDomRamCost := 25, ScriptCorporationRamCost := 1024 }
      ([("stanek", .sub [("get", .num 2)])] : RamCostTable Unit) ()
      { name := "width", nspace := "ns.stanek", filePath := "" }
      rfl).1 (by decide) [("get", RamCostLeaf.num 2)] rfl rfl⟩

theorem foldl_lodashSumStep_objVal (l : List JsNum) :
    l.foldl lodashSumStep .objVal = .objVal := by
  induction l with
  | nil => rfl
  | cons x t ih => cases x <;> simpa [lodashSumStep] using ih

theorem foldl_lodashSumStep_ge :
    ∀ (l : List JsNum) (a q : ℤ),
      (∀ x ∈ l, x = .undefVal ∨ x = .objVal ∨ ∃ c, x = .num c ∧ 0 ≤ c) →
      l.foldl lodashSumStep (.num a) = .num q → a ≤ q := by
  intro l
  induction l with
  | nil =>
    intro a q _ h
    simp only [List.foldl_nil, JsNum.num.injEq] at h
    exact h ▸ le_rfl
  | cons x t ih =>
    intro a q hall h
    rcases hall x (List.mem_cons_self x t) with h1 | h1 | ⟨c, h1, hc⟩
    · subst h1
      simp only [List.foldl_cons, lodashSumStep] at h
      exact ih a q (fun y hy => hall y (List.mem_cons_of_mem _ hy)) h
    · subst h1
      simp only [List.foldl_cons, lodashSumStep] at h
      rw [foldl_lodashSumStep_objVal] at h
      cases h
    · subst h1
      simp only [List.foldl_cons, lodashSumStep] at h
      have hge := ih (a + c) q (fun y hy => hall y (List.mem_cons_of_mem _ hy)) h
      have ha : a ≤ a + c := le_add_of_nonneg_right hc
      exact le_trans ha hge

theorem lookupStr_mem {α : Type} {t : List (String × α)} {k : String} {v : α}
    (h : lookupStr t k = some v) : ∃ kv ∈ t, kv.2 = v := by
  unfold lookupStr at h
  cases hf : t.find? (fun kv => kv.1 == k) with
  | none => rw [hf] at h; cases h
  | some kv =>
    rw [hf] at h
    simp only [Option.map] at h
    cases h
    exact ⟨kv, List.mem_of_find?_eq_some hf, rfl⟩

theorem entryFor_cost_nonneg {P : Type} {consts : RamCostConstants}
    {RamCosts : RamCostTable P} {player : P} {fn : DefinedFunction} {e : RamUsageEntry}
    (hconsts : ConstsNonneg consts) (htable : TableNonneg RamCosts)
    (h : entryFor consts RamCosts player fn = .ok e) :
    e.cost = .undefVal ∨ e.cost = .objVal ∨ ∃ c, e.cost = .num c ∧ 0 ≤ c := by
  obtain ⟨hb, hh, hd, hc⟩ := hconsts
  unfold entryFor at h
  split at h
  · rename_i sk hsk
    cases h
    have hm := List.mem_of_find?_eq_some hsk
    simp only [specialKeyChecks, List.mem_cons, List.not_mem_nil, or_false] at hm
    rcases hm with h1 | h1 | h1 | h1 <;> subst h1 <;> right <;> right
    · exact ⟨_, rfl, hh⟩
    · exact ⟨_, rfl, hd⟩
    · exact ⟨_, rfl, hd⟩
    · exact ⟨_, rfl, hc⟩
  · split at h
    · split at h
      · cases h
      · rename_i m hlook
        cases h
        right; right
        refine ⟨_, rfl, ?_⟩
        obtain ⟨kv, hmem, hkv⟩ := lookupStr_mem hlook
        have hent : EntryNonneg kv.2 := htable kv hmem
        rw [hkv] at hent
        cases hv : lookupStr m fn.name with
        | none => simp [RamCostLeaf.eval]
        | some v =>
          obtain ⟨kv2, hmem2, hkv2⟩ := lookupStr_mem hv
          have hleaf : LeafNonneg v := hkv2 ▸ hent kv2 hmem2
          simp only [Option.getD_some]
          cases v with
          | num c => exact hleaf
          | pfn f => exact hleaf player
      · cases h
        right; right
        exact ⟨0, rfl, le_rfl⟩
    · split at h
      · cases h; left; rfl
      · rename_i v hlook
        cases h
        right; right
        refine ⟨_, rfl, ?_⟩
        obtain ⟨kv, hmem, hkv⟩ := lookupStr_mem hlook
        have hent : EntryNonneg kv.2 := htable kv hmem
        rw [hkv] at hent
        cases v with
        | num c => exact hent
        | pfn f => exact hent player
      · cases h
        right; left
        rfl

theorem calculateRamCost_floor {P : Type} {consts : RamCostConstants}
    {RamCosts : RamCostTable P} {player : P} {functions : List DefinedFunction}
    {r : RamCalculation}
    (hconsts : ConstsNonneg consts) (htable : TableNonneg RamCosts)
    (h : calculateRamCost consts RamCosts player functions = .ok r) :
    ∀ q, r.cost = .num q → consts.ScriptBaseRamCost ≤ q := by
  unfold calculateRamCost at h
  cases hm : mapThrow (entryFor consts RamCosts player) (uniqWith functions) with
  | error e => rw [hm] at h; cases h
  | ok entries =>
    rw [hm] at h
    cases h
    intro q hq
    simp only [lodashSum, List.map_cons, List.foldl_cons, lodashSumStep] at hq
    refine foldl_lodashSumStep_ge _ _ _ ?_ hq
    intro x hx
    obtain ⟨e, he, hex⟩ := List.mem_map.mp hx
    obtain ⟨a, _, hfa⟩ := mapThrow_ok_mem hm e he
    have := entryFor_cost_nonneg hconsts htable hfa
    rw [hex] at this
    exact this

theorem calculateRamUsage_entries_some {P : Type} {C : Collaborators P}
    {fuelParse fuelWalk : Nat} {player : P} {codeCopy : String}
    {otherScripts : List Script} {r : RamCalculation}
    (h : calculateRamUsage C fuelParse fuelWalk player codeCopy otherScripts = some r)
    (hok : r.entries.isSome = true) :
    ∃ functions, calculateRamCost C.consts C.RamCosts player functions = .ok r := by
  unfold calculateRamUsage calculateRamUsageCore at h
  split at h
  · cases h
  · simp only [Option.map] at h
    cases h
    simp at hok
  · rename_i parseResults heqp
    split at h
    · cases h
    · rename_i allCalledFunctions heqf
      simp only [Option.map] at h
      cases hcc : calculateRamCost C.consts C.RamCosts player
          allCalledFunctions.unresolvedFunctions with
      | error e =>
        rw [hcc] at h
        cases h
        simp at hok
      | ok r2 =>
        rw [hcc] at h
        cases h
        exact ⟨allCalledFunctions.unresolvedFunctions, hcc⟩

/-- C1 (amended): every run of `calculateRamUsage` that completes without a
thrown error (the success branch, marked by a present `entries` field) and
whose total is numeric returns a cost at least `ScriptBaseRamCost`, given
the host's nonnegative cost data; a bare reference whose name is a sub-API
table key makes the total non-numeric instead (see the counterexample). -/
theorem c1_base_cost_floor {P : Type} (C : Collaborators P)
    (fuelParse fuelWalk : Nat) (player : P) (codeCopy : String)
    (otherScripts : List Script) (r : RamCalculation)
    (h : calculateRamUsage C fuelParse fuelWalk player codeCopy otherScripts = some r)
    (hok : r.entries.isSome = true)
    (hconsts : ConstsNonneg C.consts) (htable : TableNonneg C.RamCosts) :
    ∀ q, r.cost = .num q → C.consts.ScriptBaseRamCost ≤ q := by
  obtain ⟨functions, hcc⟩ := calculateRamUsage_entries_some h hok
  exact calculateRamCost_floor hconsts htable hcc

/-- C1 (counterexample): analyzing `export async function main(ns){ hacknet(); }`
against a nonnegative cost table completes without a thrown error, yet the
returned cost is not a number at all (let alone at least the base cost): the
bare name `hacknet` hits the sub-API table object, and summing it loses
numerality. -/
theorem c1_counterexample :
    calculateRamUsage
      { parseScriptAst := fun code =>
          if code == "export async function main(ns){ hacknet(); }" then
            .ok { importedModules := [],
                  functionNodes := [{ name := "main",
                                      calls := [{ name := "hacknet", nspace := "" }] }] }
          else .error ()
        areImportsEquals := fun a b => a == b
        urlImport := fun _ => none
        consts := { ScriptBaseRamCost := 2, ScriptHacknetNodesRamCost := 4,
                    ScriptDomRamCost := 25, ScriptCorporationRamCost := 1024 }
        RamCosts := ([("hacknet", .sub [("purchaseNode", .num 4)])] : RamCostTable Unit) }
      1 3 () "export async function main(ns){ hacknet(); }" []
      = some { cost := .objVal,
               entries := some [{ type := .ns, name := "hacknet", cost := .objVal }] } ∧
    ConstsNonneg { ScriptBaseRamCost := 2, ScriptHacknetNodesRamCost := 4,
                   ScriptDomRamCost := 25, ScriptCorporationRamCost := 1024 } ∧
    TableNonneg ([("hacknet", .sub [("purchaseNode", .num 4)])] : RamCostTable Unit) ∧
    ∀ q : ℤ, JsNum.objVal ≠ JsNum.num q := by
  refine ⟨by decide, ⟨by decide, by decide, by decide, by decide⟩, ?_, ?_⟩
  · intro kv hkv
    simp only [List.mem_singleton] at hkv
    subst hkv
    intro kv2 hkv2
    simp only [List.mem_singleton] at hkv2
    subst hkv2
    exact (by decide : (0 : ℤ) ≤ 4)
  · intro q hq
    cases hq

/-- C1 (witness for the amended theorem): a concrete successful run with a
numeric total, whose cost 3 is at least the base cost 2 by the theorem. -/
theorem c1_witness :
    (calculateRamUsage
        { parseScriptAst := fun code =>
            if code == "export async function main(ns){ ns.hack(1); }" then
              .ok { importedModules := [],
                    functionNodes := [{ name := "main",
                                        calls := [{ name := "hack", nspace := "ns" }] }] }
            else .error ()
          areImportsEquals := fun a b => a == b
          urlImport := fun _ => none
          consts := { ScriptBaseRamCost := 2, ScriptHacknetNodesRamCost := 4,
                      ScriptDomRamCost := 25, ScriptCorporationRamCost := 1024 }
          RamCosts := ([("hack", .leaf (.num 1))] : RamCostTable Unit) }
        1 3 () "export async function main(ns){ ns.hack(1); }" []
      = some { cost := .num 3,
               entries := some [{ type := .ns, name := "hack", cost := .num 1 }] }) ∧
    (2 : ℤ) ≤ 3 :=
  ⟨by decide,
    c1_base_cost_floor
      { parseScriptAst := fun code =>
          if code == "export async function main(ns){ ns.hack(1); }" then
            .ok { importedModules := [],
                  functionNodes := [{ name := "main",
                                      calls := [{ name := "hack", nspace := "ns" }] }] }
          else .error ()
        areImportsEquals := fun a b => a == b
        urlImport := fun _ => none
        consts := { ScriptBaseRamCost := 2, ScriptHacknetNodesRamCost := 4,
                    ScriptDomRamCost := 25, ScriptCorporationRamCost := 1024 }
        RamCosts := ([("hack", .leaf (.num 1))] : RamCostTable Unit) }
      1 3 () "export async function main(ns){ ns.hack(1); }" []
      { cost := .num 3, entries := some [{ type := .ns, name := "hack", cost := .num 1 }] }
      (by decide) (by decide) ⟨by decide, by decide, by decide, by decide⟩
      (fun kv hkv => by
        simp only [List.mem_singleton] at hkv
        subst hkv
        exact (by decide : (0 : ℤ) ≤ 1))
      3 rfl⟩

theorem parseScript_error_shape {P : Type} {C : Collaborators P} {filePath code : String}
    {e : ErrVal} (h : parseScript C filePath code = .error e) : e = .syntaxError := by
  unfold parseScript at h
  split at h
  · cases h; rfl
  · cases h

theorem resolveImportCode_error_shape {P : Type} {C : Collaborators P}
    {otherScripts : List Script} {pathToParse normalizedPath : String} {e : ErrVal}
    (h : resolveImportCode C otherScripts pathToParse normalizedPath = .error e) :
    (∃ msg, e = .ramException RamCalculationErrorCode.ImportError msg) ∨
    (∃ msg, e = .ramException RamCalculationErrorCode.URLImportError msg) := by
  unfold resolveImportCode resolveExternalModule at h
  split at h
  · split at h
    · cases h
    · cases h
      right
      exact ⟨_, rfl⟩
  · split at h
    · cases h
    · cases h
      left
      exact ⟨_, rfl⟩

theorem parseAllLoop_error_shape {P : Type} (C : Collaborators P)
    (otherScripts : List Script) :
    ∀ (fuel : Nat) (parsedModules : List ParsedModule) (worklist : List String)
      (e : ErrVal),
      parseAllLoop C otherScripts fuel parsedModules worklist = some (.error e) →
      e = .syntaxError ∨
        (∃ msg, e = .ramException RamCalculationErrorCode.ImportError msg) ∨
        (∃ msg, e = .ramException RamCalculationErrorCode.URLImportError msg) := by
  intro fuel
  induction fuel with
  | zero =>
    intro parsedModules worklist e h
    cases worklist with
    | nil => simp [parseAllLoop] at h
    | cons a t => simp [parseAllLoop] at h
  | succ n ih =>
    intro parsedModules worklist e h
    cases worklist with
    | nil => simp [parseAllLoop] at h
    | cons pathToParse rest =>
      rw [parseAllLoop] at h
      split at h
      · exact ih _ _ _ h
      · split at h
        · rename_i e2 hcode
          cases h
          right
          exact resolveImportCode_error_shape hcode
        · split at h
          · rename_i e2 hparse
            cases h
            left
            exact parseScript_error_shape hparse
          · exact ih _ _ _ h

theorem parseAll_error_shape {P : Type} {C : Collaborators P}
    {otherScripts : List Script} {fuel : Nat} {initialCode : String} {e : ErrVal}
    (h : parseAll C otherScripts fuel initialCode = some (.error e)) :
    e = .syntaxError ∨
      (∃ msg, e = .ramException RamCalculationErrorCode.ImportError msg) ∨
      (∃ msg, e = .ramException RamCalculationErrorCode.URLImportError msg) := by
  unfold parseAll at h
  split at h
  · rename_i e2 hparse
    cases h
    left
    exact parseScript_error_shape hparse
  · exact parseAllLoop_error_shape C otherScripts _ _ _ _ h

theorem entryFor_error_shape {P : Type} {consts : RamCostConstants}
    {RamCosts : RamCostTable P} {player : P} {fn : DefinedFunction} {e : ErrVal}
    (h : entryFor consts RamCosts player fn = .error e) : e = .typeError := by
  unfold entryFor at h
  split at h
  · cases h
  · split at h
    · split at h
      · cases h; rfl
      · cases h
      · cases h
    · split at h
      · cases h
      · cases h
      · cases h

theorem mapThrow_error_shape {α β : Type} {f : α → Except ErrVal β} :
    ∀ {l : List α} {e : ErrVal}, mapThrow f l = .error e → ∃ a ∈ l, f a = .error e := by
  intro l
  induction l with
  | nil =>
    intro e h
    exact Except.noConfusion h
  | cons a t ih =>
    intro e h
    simp only [mapThrow] at h
    cases hfa : f a with
    | error e2 =>
      rw [hfa] at h
      cases h
      exact ⟨a, List.mem_cons_self a t, hfa⟩
    | ok b =>
      rw [hfa] at h
      cases hmt : mapThrow f t with
      | error e2 =>
        rw [hmt] at h
        cases h
        obtain ⟨a2, ha2, hfa2⟩ := ih hmt
        exact ⟨a2, List.mem_cons_of_mem a ha2, hfa2⟩
      | ok bs => rw [hmt] at h; cases h

theorem calculateRamCost_error_shape {P : Type} {consts : RamCostConstants}
    {RamCosts : RamCostTable P} {player : P} {functions : List DefinedFunction}
    {e : ErrVal} (h : calculateRamCost consts RamCosts player functions = .error e) :
    e = .typeError := by
  unfold calculateRamCost at h
  cases hm : mapThrow (entryFor consts RamCosts player) (uniqWith functions) with
  | error e2 =>
    rw [hm] at h
    cases h
    obtain ⟨a, _, hfa⟩ := mapThrow_error_shape hm
    exact entryFor_error_shape hfa
  | ok entries => rw [hm] at h; cases h

theorem calculateRamUsageCore_error_shape {P : Type} {C : Collaborators P}
    {fuelParse fuelWalk : Nat} {player : P} {codeCopy : String}
    {otherScripts : List Script} {e : ErrVal}
    (h : calculateRamUsageCore C fuelParse fuelWalk player codeCopy otherScripts
        = some (.error e)) :
    e = .syntaxError ∨ e = .typeError ∨
      (∃ msg, e = .ramException RamCalculationErrorCode.ImportError msg) ∨
      (∃ msg, e = .ramException RamCalculationErrorCode.URLImportError msg) := by
  unfold calculateRamUsageCore at h
  split at h
  · cases h
  · rename_i e2 hpa
    cases h
    rcases parseAll_error_shape hpa with h1 | h1 | h1
    · exact Or.inl h1
    · exact Or.inr (Or.inr (Or.inl h1))
    · exact Or.inr (Or.inr (Or.inr h1))
  · split at h
    · cases h
    · rename_i allCalledFunctions heqf
      have hcc := Option.some.inj h
      exact Or.inr (Or.inl (calculateRamCost_error_shape hcc))

theorem calculateRamUsage_of_core_ok {P : Type} {C : Collaborators P}
    {fuelParse fuelWalk : Nat} {player : P} {codeCopy : String}
    {otherScripts : List Script} {r : RamCalculation}
    (h : calculateRamUsageCore C fuelParse fuelWalk player codeCopy otherScripts
        = some (.ok r)) :
    calculateRamUsage C fuelParse fuelWalk player codeCopy otherScripts = some r := by
  unfold calculateRamUsage
  rw [h]
  rfl

theorem calculateRamUsage_of_core_error {P : Type} {C : Collaborators P}
    {fuelParse fuelWalk : Nat} {player : P} {codeCopy : String}
    {otherScripts : List Script} {e : ErrVal}
    (h : calculateRamUsageCore C fuelParse fuelWalk player codeCopy otherScripts
        = some (.error e)) :
    calculateRamUsage C fuelParse fuelWalk player codeCopy otherScripts
      = some { cost := .num ((e.codeField).getD RamCalculationErrorCode.SyntaxError),
               entries := none } := by
  unfold calculateRamUsage
  rw [h]
  rfl

/-- C3 (amended): whenever the pipeline completes, no error escapes the
top-level operation — a success value passes through unchanged, and a thrown
value is turned into `{ cost := errorCode, entries := undefined }`, where
`errorCode` is the thrown error's own `code` field for the two
`RamCalculationException` kinds and the `SyntaxError` code for every other
thrown value (the front end's `SyntaxError` and the cost lookup's
`TypeError`, neither of which carries a `code` field); the reported code is
always one of the three agreed error codes. -/
theorem c3_error_reporting {P : Type} (C : Collaborators P)
    (fuelParse fuelWalk : Nat) (player : P) (codeCopy : String)
    (otherScripts : List Script) (res : Except ErrVal RamCalculation)
    (h : calculateRamUsageCore C fuelParse fuelWalk player codeCopy otherScripts
        = some res) :
    (∀ r, res = .ok r →
      calculateRamUsage C fuelParse fuelWalk player codeCopy otherScripts = some r) ∧
    (∀ e, res = .error e →
      calculateRamUsage C fuelParse fuelWalk player codeCopy otherScripts
        = some { cost := .num (catchCode e), entries := none } ∧
      (catchCode e = RamCalculationErrorCode.SyntaxError ∨
       catchCode e = RamCalculationErrorCode.ImportError ∨
       catchCode e = RamCalculationErrorCode.URLImportError)) := by
  constructor
  · intro r hres
    subst hres
    exact calculateRamUsage_of_core_ok h
  · intro e hres
    subst hres
    constructor
    · have hcatch : (e.codeField).getD RamCalculationErrorCode.SyntaxError = catchCode e := by
        cases e <;> rfl
      rw [← hcatch]
      exact calculateRamUsage_of_core_error h
    · rcases calculateRamUsageCore_error_shape h with h1 | h1 | ⟨msg, h1⟩ | ⟨msg, h1⟩
      · subst h1; left; rfl
      · subst h1; left; rfl
      · subst h1; right; left; rfl
      · subst h1; right; right; rfl

/-- C3 (counterexample): a run in which the cost stage throws a `TypeError`
(a call under namespace `ns.foo` with no `foo` sub-table).  The thrown value
carries no numeric `code` field, yet the reported cost is the `SyntaxError`
code — so the reported code is not "the thrown error's numeric code field",
and the thrown error is not one of the three spec error kinds. -/
theorem c3_counterexample :
    calculateRamUsageCore
      { parseScriptAst := fun code =>
          if code == "export async function main(ns){ ns.foo.bar(); }" then
            .ok { importedModules := [],
                  functionNodes := [{ name := "main",
                                      calls := [{ name := "bar", nspace := "ns.foo" }] }] }
          else .error ()
        areImportsEquals := fun a b => a == b
        urlImport := fun _ => none
        consts := { ScriptBaseRamCost := 2, ScriptHacknetNodesRamCost := 4,
                    ScriptDomRamCost := 25, ScriptCorporationRamCost := 1024 }
        RamCosts := ([] : RamCostTable Unit) }
      1 3 () "export async function main(ns){ ns.foo.bar(); }" []
      = some (.error .typeError) ∧
    ErrVal.codeField .typeError = none ∧
    calculateRamUsage
      { parseScriptAst := fun code =>
          if code == "export async function main(ns){ ns.foo.bar(); }" then
            .ok { importedModules := [],
                  functionNodes := [{ name := "main",
                                      calls := [{ name := "bar", nspace := "ns.foo" }] }] }
          else .error ()
        areImportsEquals := fun a b => a == b
        urlImport := fun _ => none
        consts := { ScriptBaseRamCost := 2, ScriptHacknetNodesRamCost := 4,
                    ScriptDomRamCost := 25, ScriptCorporationRamCost := 1024 }
        RamCosts := ([] : RamCostTable Unit) }
      1 3 () "export async function main(ns){ ns.foo.bar(); }" []
      = some { cost := .num RamCalculationErrorCode.SyntaxError, entries := none } := by
  refine ⟨by decide, rfl, by decide⟩

/-- C3 (witness for the amended theorem): a missing import throws the
`ImportError` exception, and the top level reports exactly its code. -/
theorem c3_witness :
    calculateRamUsageCore
      { parseScriptAst := fun code =>
          if code == "IMPORTING" then
            .ok { importedModules := [{ filePath := "libX", aliasName := "",
                                        imports := ["f"] }],
                  functionNodes := [{ name := "main", calls := [] }] }
          else .error ()
        areImportsEquals := fun a b => a == b
        urlImport := fun _ => none
        consts := { ScriptBaseRamCost := 2, ScriptHacknetNodesRamCost := 4,
                    ScriptDomRamCost := 25, ScriptCorporationRamCost := 1024 }
        RamCosts := ([] : RamCostTable Unit) }
      2 3 () "IMPORTING" []
      = some (.error (.ramException RamCalculationErrorCode.ImportError
          "Imported module libX can't be found")) ∧
    calculateRamUsage
      { parseScriptAst := fun code =>
          if code == "IMPORTING" then
            .ok { importedModules := [{ filePath := "libX", aliasName := "",
                                        imports := ["f"] }],
                  functionNodes := [{ name := "main", calls := [] }] }
          else .error ()
        areImportsEquals := fun a b => a == b
        urlImport := fun _ => none
        consts := { ScriptBaseRamCost := 2, ScriptHacknetNodesRamCost := 4,
                    ScriptDomRamCost := 25, ScriptCorporationRamCost := 1024 }
        RamCosts := ([] : RamCostTable Unit) }
      2 3 () "IMPORTING" []
      = some { cost := .num RamCalculationErrorCode.ImportError, entries := none } :=
  ⟨by decide,
    ((c3_error_reporting
      { parseScriptAst := fun code =>
          if code == "IMPORTING" then
            .ok { importedModules := [{ filePath := "libX", aliasName := "",
                                        imports := ["f"] }],
                  functionNodes := [{ name := "main", calls := [] }] }
          else .error ()
        areImportsEquals := fun a b => a == b
        urlImport := fun _ => none
        consts := { ScriptBaseRamCost := 2, ScriptHacknetNodesRamCost := 4,
                    ScriptDomRamCost := 25, ScriptCorporationRamCost := 1024 }
        RamCosts := ([] : RamCostTable Unit) }
      2 3 () "IMPORTING" []
      (.error (.ramException RamCalculationErrorCode.ImportError
          "Imported module libX can't be found"))
      (by decide)).2
      (.ramException RamCalculationErrorCode.ImportError
          "Imported module libX can't be found") rfl).1⟩

/-- C10: in the catch branch, a thrown value whose `code` field is absent is
reported as the `SyntaxError` code, and a thrown value that carries its own
`code` field is reported as exactly that code. -/
theorem c10_code_fallback {P : Type} (C : Collaborators P)
    (fuelParse fuelWalk : Nat) (player : P) (codeCopy : String)
    (otherScripts : List Script) (e : ErrVal)
    (h : calculateRamUsageCore C fuelParse fuelWalk player codeCopy otherScripts
        = some (.error e)) :
    (e.codeField = none →
      calculateRamUsage C fuelParse fuelWalk player codeCopy otherScripts
        = some { cost := .num RamCalculationErrorCode.SyntaxError, entries := none }) ∧
    (∀ c, e.codeField = some c →
      calculateRamUsage C fuelParse fuelWalk player codeCopy otherScripts
        = some { cost := .num c, entries := none }) := by
  constructor
  · intro hnone
    have := calculateRamUsage_of_core_error h
    rw [hnone] at this
    exact this
  · intro c hsome
    have := calculateRamUsage_of_core_error h
    rw [hsome] at this
    exact this

/-- C10 (witness): a syntax error from the front end carries no `code`
field and is reported as the `SyntaxError` code. -/
theorem c10_witness :
    calculateRamUsageCore
      { parseScriptAst := fun _ => .error ()
        areImportsEquals := fun a b => a == b
        urlImport := fun _ => none
        consts := { ScriptBaseRamCost := 2, ScriptHacknetNodesRamCost := 4,
                    ScriptDomRamCost := 25, ScriptCorporationRamCost := 1024 }
        RamCosts := ([] : RamCostTable Unit) }
      1 1 () "not es module syntax" []
      = some (.error .syntaxError) ∧
    ErrVal.codeField .syntaxError = none ∧
    calculateRamUsage
      { parseScriptAst := fun _ => .error ()
        areImportsEquals := fun a b => a == b
        urlImport := fun _ => none
        consts := { ScriptBaseRamCost := 2, ScriptHacknetNodesRamCost := 4,
                    ScriptDomRamCost := 25, ScriptCorporationRamCost := 1024 }
        RamCosts := ([] : RamCostTable Unit) }
      1 1 () "not es module syntax" []
      = some { cost := .num RamCalculationErrorCode.SyntaxError, entries := none } :=
  ⟨by decide, rfl,
    (c10_code_fallback
      { parseScriptAst := fun _ => .error ()
        areImportsEquals := fun a b => a == b
        urlImport := fun _ => none
        consts := { ScriptBaseRamCost := 2, ScriptHacknetNodesRamCost := 4,
                    ScriptDomRamCost := 25, ScriptCorporationRamCost := 1024 }
        RamCosts := ([] : RamCostTable Unit) }
      1 1 () "not es module syntax" [] .syntaxError (by decide)).1 rfl⟩

theorem parseScript_filePath {P : Type} {C : Collaborators P} {filePath code : String}
    {m : ParsedModule} (h : parseScript C filePath code = .ok m) :
    m.filePath = filePath := by
  unfold parseScript at h
  split at h
  · cases h
  · cases h; rfl

theorem parseAllLoop_nodup {P : Type} (C : Collaborators P) (otherScripts : List Script) :
    ∀ (fuel : Nat) (parsedModules : List ParsedModule) (worklist : List String)
      (mods : List ParsedModule),
      parseAllLoop C otherScripts fuel parsedModules worklist = some (.ok mods) →
      (parsedModules.map (fun m => m.filePath)).Nodup →
      (mods.map (fun m => m.filePath)).Nodup ∧ ∃ rest2, mods = parsedModules ++ rest2 := by
  intro fuel
  induction fuel with
  | zero =>
    intro parsedModules worklist mods h hnodup
    cases worklist with
    | nil =>
      simp only [parseAllLoop] at h
      cases h
      exact ⟨hnodup, [], by simp⟩
    | cons a t => simp [parseAllLoop] at h
  | succ n ih =>
    intro parsedModules worklist mods h hnodup
    cases worklist with
    | nil =>
      simp only [parseAllLoop] at h
      cases h
      exact ⟨hnodup, [], by simp⟩
    | cons pathToParse rest =>
      rw [parseAllLoop] at h
      split at h
      · exact ih _ _ _ h hnodup
      · rename_i hcontains
        split at h
        · cases h
        · split at h
          · cases h
          · rename_i c result hparse
            have hfp := parseScript_filePath hparse
            have hnotin : normalizePath pathToParse ∉
                parsedModules.map (fun m => m.filePath) := by
              simpa using hcontains
            have hnodup2 : ((parsedModules ++ [result]).map
                (fun m => m.filePath)).Nodup := by
              simp only [List.map_append, List.map_cons, List.map_nil]
              rw [List.nodup_append]
              refine ⟨hnodup, List.nodup_singleton _, ?_⟩
              intro a ha hb
              simp only [List.mem_singleton] at hb
              subst hb
              rw [hfp] at ha
              exact hnotin ha
            obtain ⟨hnd, rest2, heq⟩ := ih _ _ _ h hnodup2
            exact ⟨hnd, [result] ++ rest2, by simpa using heq⟩

/-- C9: on every successful `parseAll`, the returned modules carry pairwise
distinct file paths — each module is parsed at most once, keyed on the
specifier normalized by stripping one leading `"./"` — and the first element
is the entry-point module with file path `""`.  The statement quantifies
over arbitrary import graphs, including cyclic ones. -/
theorem c9_parse_once {P : Type} (C : Collaborators P) (otherScripts : List Script)
    (fuel : Nat) (initialCode : String) (mods : List ParsedModule)
    (h : parseAll C otherScripts fuel initialCode = some (.ok mods)) :
    (mods.map (fun m => m.filePath)).Nodup ∧
    ∃ entryModule rest2, mods = entryModule :: rest2 ∧ entryModule.filePath = "" := by
  unfold parseAll at h
  split at h
  · cases h
  · rename_i result hparse
    have hfp := parseScript_filePath hparse
    obtain ⟨hnd, rest2, heq⟩ := parseAllLoop_nodup C otherScripts _ _ _ _ h
      (by simp)
    exact ⟨hnd, result, rest2, by simpa using heq, hfp⟩

/-- C9 (witness): a cyclic import graph — the entry imports `lib`, and `lib`
imports `./lib`, which normalizes back to `lib` itself — still completes,
with distinct file paths and the entry module first. -/
theorem c9_witness :
    (parseAll
      { parseScriptAst := fun code =>
          if code == "MAIN" then
            .ok { importedModules := [{ filePath := "lib", aliasName := "",
                                        imports := ["g"] }],
                  functionNodes := [{ name := "main", calls := [] }] }
          else if code == "LIB" then
            .ok { importedModules := [{ filePath := "./lib", aliasName := "",
                                        imports := ["h"] }],
                  functionNodes := [] }
          else .error ()
        areImportsEquals := fun a b => a == b
        urlImport := fun _ => none
        consts := { ScriptBaseRamCost := 2, ScriptHacknetNodesRamCost := 4,
                    ScriptDomRamCost := 25, ScriptCorporationRamCost := 1024 }
        RamCosts := ([] : RamCostTable Unit) }
      [{ filename := "lib", code := "LIB" }] 2 "MAIN"
      = some (.ok
        [{ filePath := "",
           importedModules := [{ filePath := "lib", aliasName := "", imports := ["g"] }],
           functionTree := [{ fn := { name := "main", nspace := "", filePath := "" },
                              calledFunctions := [] }] },
         { filePath := "lib",
           importedModules := [{ filePath := "./lib", aliasName := "", imports := ["h"] }],
           functionTree := [] }])) ∧
    (([{ filePath := "",
         importedModules := [{ filePath := "lib", aliasName := "", imports := ["g"] }],
         functionTree := [{ fn := { name := "main", nspace := "", filePath := "" },
                            calledFunctions := [] }] },
       { filePath := "lib",
         importedModules := [{ filePath := "./lib", aliasName := "", imports := ["h"] }],
         functionTree := [] }] : List ParsedModule).map (fun m => m.filePath)).Nodup ∧
    ∃ entryModule rest2,
      ([{ filePath := "",
          importedModules := [{ filePath := "lib", aliasName := "", imports := ["g"] }],
          functionTree := [{ fn := { name := "main", nspace := "", filePath := "" },
                             calledFunctions := [] }] },
        { filePath := "lib",
          importedModules := [{ filePath := "./lib", aliasName := "", imports := ["h"] }],
          functionTree := [] }] : List ParsedModule) = entryModule :: rest2 ∧
      entryModule.filePath = "" :=
  ⟨by decide,
    c9_parse_once
      { parseScriptAst := fun code =>
          if code == "MAIN" then
            .ok { importedModules := [{ filePath := "lib", aliasName := "",
                                        imports := ["g"] }],
                  functionNodes := [{ name := "main", calls := [] }] }
          else if code == "LIB" then
            .ok { importedModules := [{ filePath := "./lib", aliasName := "",
                                        imports := ["h"] }],
                  functionNodes := [] }
          else .error ()
        areImportsEquals := fun a b => a == b
        urlImport := fun _ => none
        consts := { ScriptBaseRamCost := 2, ScriptHacknetNodesRamCost := 4,
                    ScriptDomRamCost := 25, ScriptCorporationRamCost := 1024 }
        RamCosts := ([] : RamCostTable Unit) }
      [{ filename := "lib", code := "LIB" }] 2 "MAIN"
      [{ filePath := "",
         importedModules := [{ filePath := "lib", aliasName := "", imports := ["g"] }],
         functionTree := [{ fn := { name := "main", nspace := "", filePath := "" },
                            calledFunctions := [] }] },
       { filePath := "lib",
         importedModules := [{ filePath := "./lib", aliasName := "", imports := ["h"] }],
         functionTree := [] }]
      (by decide)⟩

theorem facfStep_none {modules : List ParsedModule} {current : DefinedFunction}
    (s : FACFState) (hm : lookupModule modules current = none) :
    facfStep modules current s = s := by
  unfold facfStep
  rw [hm]

theorem facfStep_resolved {modules : List ParsedModule} {current : DefinedFunction}
    {currentModule : ParsedModule} {currentFn : FunctionTreeNode} (s : FACFState)
    (hm : lookupModule modules current = some currentModule)
    (hn : lookupNode modules currentModule current = some currentFn) :
    facfStep modules current s =
      { resolved := s.resolved ++ [current], unresolved := s.unresolved,
        toProcess := s.toProcess ++ currentFn.calledFunctions.filter
            (fun d => !(isAlreadyProcessed s d)),
        enqueued := s.enqueued ++ currentFn.calledFunctions.filter
            (fun d => !(isAlreadyProcessed s d)) } := by
  unfold facfStep
  simp only [hm, hn]

theorem facfStep_unresolved {modules : List ParsedModule} {current : DefinedFunction}
    {currentModule : ParsedModule} (s : FACFState)
    (hm : lookupModule modules current = some currentModule)
    (hn : lookupNode modules currentModule current = none) :
    facfStep modules current s =
      { resolved := s.resolved, unresolved := s.unresolved ++ [current],
        toProcess := s.toProcess, enqueued := s.enqueued } := by
  unfold facfStep
  simp only [hm, hn]

theorem facfStep_classInv {modules : List ParsedModule} {current : DefinedFunction}
    {s : FACFState} (hinv : ClassInv modules s) :
    ClassInv modules (facfStep modules current s) := by
  cases hm : lookupModule modules current with
  | none =>
    rw [facfStep_none s hm]
    exact hinv
  | some currentModule =>
    cases hn : lookupNode modules currentModule current with
    | some currentFn =>
      rw [facfStep_resolved s hm hn]
      constructor
      · intro x hx
        rcases List.mem_append.mp hx with hx | hx
        · exact hinv.1 x hx
        · simp only [List.mem_singleton] at hx
          subst hx
          exact ⟨currentModule, hm, by rw [hn]; rfl⟩
      · intro x hx
        exact hinv.2 x hx
    | none =>
      rw [facfStep_unresolved s hm hn]
      constructor
      · intro x hx
        exact hinv.1 x hx
      · intro x hx
        rcases List.mem_append.mp hx with hx | hx
        · exact hinv.2 x hx
        · simp only [List.mem_singleton] at hx
          subst hx
          exact ⟨currentModule, hm, hn⟩

theorem facfRun_classInv {modules : List ParsedModule} :
    ∀ {fuel : Nat} {s s2 : FACFState}, facfRun modules fuel s = some s2 →
      ClassInv modules s → ClassInv modules s2 := by
  intro fuel
  induction fuel with
  | zero =>
    intro s s2 h hinv
    unfold facfRun at h
    split at h
    · cases h; exact hinv
    · cases h
  | succ n ih =>
    intro s s2 h hinv
    rw [facfRun] at h
    split at h
    · cases h; exact hinv
    · exact ih h (facfStep_classInv hinv)

/-- C6: on every completed traversal, the two output lists are disjoint
under structural equality: each resolved function's classification (module
found, node found) and each unresolved one's (module found, node not found)
are pure functions of the module list, and the two outcomes exclude each
other. -/
theorem c6_disjointness (modules : List ParsedModule) (entryPoint : DefinedFunction)
    (fuel : Nat) (result : FunctionCalls)
    (h : findAllCalledFunctions modules entryPoint fuel = some result) :
    ∀ fn, fn ∈ result.resolvedFunctions → fn ∉ result.unresolvedFunctions := by
  unfold findAllCalledFunctions at h
  cases hr : facfRun modules fuel (initState entryPoint) with
  | none => rw [hr] at h; cases h
  | some s2 =>
    rw [hr] at h
    simp only [Option.map] at h
    cases h
    have hinit : ClassInv modules (initState entryPoint) := by
      constructor
      · intro x hx
        simp [initState, processedList] at hx
      · intro x hx
        simp [initState, processedList] at hx
    have hinv : ClassInv modules s2 := facfRun_classInv hr hinit
    intro fn hres huns
    obtain ⟨m1, hm1, hn1⟩ := hinv.1 fn hres
    obtain ⟨m2, hm2, hn2⟩ := hinv.2 fn huns
    rw [hm1] at hm2
    have hm12 := Option.some.inj hm2
    subst hm12
    rw [hn2] at hn1
    simp at hn1

/-- C6 (witness): on a concrete run, `main` is resolved and is not among the
unresolved functions. -/
theorem c6_witness :
    (findAllCalledFunctions
        [{ filePath := "",
           importedModules := [],
           functionTree := [{ fn := { name := "main", nspace := "", filePath := "" },
                              calledFunctions := [{ name := "hack", nspace := "ns",
                                                    filePath := "" }] }] }]
        defaultEntryPoint 3
      = some { resolvedFunctions := [{ name := "main", nspace := "", filePath := "" }],
               unresolvedFunctions := [{ name := "hack", nspace := "ns",
                                         filePath := "" }] }) ∧
    ({ name := "main", nspace := "", filePath := "" } : DefinedFunction) ∉
      ({ resolvedFunctions := [{ name := "main", nspace := "", filePath := "" }],
         unresolvedFunctions := [{ name := "hack", nspace := "ns", filePath := "" }] }
        : FunctionCalls).unresolvedFunctions :=
  ⟨by decide,
    c6_disjointness
      [{ filePath := "",
         importedModules := [],
         functionTree := [{ fn := { name := "main", nspace := "", filePath := "" },
                            calledFunctions := [{ name := "hack", nspace := "ns",
                                                  filePath := "" }] }] }]
      defaultEntryPoint 3
      { resolvedFunctions := [{ name := "main", nspace := "", filePath := "" }],
        unresolvedFunctions := [{ name := "hack", nspace := "ns", filePath := "" }] }
      (by decide)
      { name := "main", nspace := "", filePath := "" }
      (by decide)⟩

theorem isAlreadyProcessed_iff {s : FACFState} {fn : DefinedFunction} :
    isAlreadyProcessed s fn = true ↔ fn ∈ processedList s := by
  simp only [isAlreadyProcessed, processedList, Bool.or_eq_true, List.any_eq_true,
    beq_iff_eq, List.mem_append]
  constructor
  · rintro (⟨x, hx, hxe⟩ | ⟨x, hx, hxe⟩)
    · exact Or.inl (hxe ▸ hx)
    · exact Or.inr (hxe ▸ hx)
  · rintro (hx | hx)
    · exact Or.inl ⟨fn, hx, rfl⟩
    · exact Or.inr ⟨fn, hx, rfl⟩

theorem mem_le_foldr_max : ∀ (l : List Nat) (a : Nat), a ∈ l → a ≤ l.foldr max 0 := by
  intro l
  induction l with
  | nil =>
    intro a ha
    simp at ha
  | cons b t ih =>
    intro a ha
    rcases List.mem_cons.mp ha with ha | ha
    · subst ha
      exact le_max_left _ _
    · exact le_trans (ih a ha) (le_max_right _ _)

theorem lookupNode_mem {modules : List ParsedModule} {m : ParsedModule}
    {current : DefinedFunction} {node : FunctionTreeNode}
    (hm : lookupModule modules current = some m)
    (hn : lookupNode modules m current = some node) :
    ∃ m2 ∈ modules, node ∈ m2.functionTree := by
  have hmm : m ∈ modules := List.mem_of_find?_eq_some hm
  unfold lookupNode at hn
  split at hn
  · rename_i ft hft
    cases hn
    exact ⟨m, hmm, List.mem_of_find?_eq_some hft⟩
  · split at hn
    · cases hn
    · split at hn
      · cases hn
      · rename_i importModule hfind
        exact ⟨importModule, List.mem_of_find?_eq_some hfind,
          List.mem_of_find?_eq_some hn⟩

theorem node_calledFunctions_le_maxDeps {modules : List ParsedModule}
    {node : FunctionTreeNode} (h : ∃ m2 ∈ modules, node ∈ m2.functionTree) :
    node.calledFunctions.length ≤ maxDeps modules := by
  obtain ⟨m2, hm2, hnode⟩ := h
  apply mem_le_foldr_max
  apply List.mem_map_of_mem
  exact List.mem_flatMap_of_mem hm2 hnode

theorem node_calledFunctions_subset_allDeps {modules : List ParsedModule}
    {node : FunctionTreeNode} (h : ∃ m2 ∈ modules, node ∈ m2.functionTree) :
    ∀ d ∈ node.calledFunctions, d ∈ allDeps modules := by
  obtain ⟨m2, hm2, hnode⟩ := h
  intro d hd
  exact List.mem_flatMap_of_mem hm2 (List.mem_flatMap_of_mem hnode hd)

theorem isAlreadyProcessed_set_toProcess (s : FACFState) (q : List DefinedFunction) :
    isAlreadyProcessed { s with toProcess := q } = isAlreadyProcessed s := rfl

theorem comp1_set_toProcess (modules : List ParsedModule) (entryPoint : DefinedFunction)
    (s : FACFState) (q : List DefinedFunction) :
    comp1 modules entryPoint { s with toProcess := q } = comp1 modules entryPoint s := rfl

theorem facfStep_stateInv {modules : List ParsedModule} {current : DefinedFunction}
    {s : FACFState} (h1 : StateInv modules s) :
    StateInv modules (facfStep modules current s) := by
  cases hm : lookupModule modules current with
  | none =>
    rw [facfStep_none s hm]
    exact h1
  | some m =>
    cases hn : lookupNode modules m current with
    | some fn2 =>
      rw [facfStep_resolved s hm hn]
      intro x hx
      simp only [processedList, List.mem_append, List.mem_singleton] at hx
      rcases hx with (hx | hx) | hx
      · exact h1 x (List.mem_append.mpr (Or.inl hx))
      · subst hx
        rw [hm]
        rfl
      · exact h1 x (List.mem_append.mpr (Or.inr hx))
    | none =>
      rw [facfStep_unresolved s hm hn]
      intro x hx
      simp only [processedList, List.mem_append, List.mem_singleton] at hx
      rcases hx with hx | (hx | hx)
      · exact h1 x (List.mem_append.mpr (Or.inl hx))
      · exact h1 x (List.mem_append.mpr (Or.inr hx))
      · subst hx
        rw [hm]
        rfl

theorem facfStep_queueInv {modules : List ParsedModule}
    {entryPoint current : DefinedFunction} {s : FACFState}
    (h2 : QueueInv modules entryPoint s) :
    QueueInv modules entryPoint (facfStep modules current s) := by
  cases hm : lookupModule modules current with
  | none =>
    rw [facfStep_none s hm]
    exact h2
  | some m =>
    cases hn : lookupNode modules m current with
    | some fn2 =>
      rw [facfStep_resolved s hm hn]
      intro x hx
      rcases List.mem_append.mp hx with hx | hx
      · exact h2 x hx
      · have hxdeps := List.mem_of_mem_filter hx
        have hsub := node_calledFunctions_subset_allDeps (lookupNode_mem hm hn)
        unfold univFinset
        exact Finset.mem_insert_of_mem (List.mem_toFinset.mpr (hsub x hxdeps))
    | none =>
      rw [facfStep_unresolved s hm hn]
      exact h2

theorem procSet_concat_resolved (s : FACFState) (current : DefinedFunction)
    (q l : List DefinedFunction) :
    (processedList { resolved := s.resolved ++ [current], unresolved := s.unresolved,
                     toProcess := q, enqueued := l }).toFinset
      = insert current (processedList s).toFinset := by
  ext x
  simp only [processedList, List.mem_toFinset, List.mem_append, List.mem_singleton,
    Finset.mem_insert]
  tauto

theorem procSet_concat_unresolved (s : FACFState) (current : DefinedFunction)
    (q l : List DefinedFunction) :
    (processedList { resolved := s.resolved, unresolved := s.unresolved ++ [current],
                     toProcess := q, enqueued := l }).toFinset
      = insert current (processedList s).toFinset := by
  ext x
  simp only [processedList, List.mem_toFinset, List.mem_append, List.mem_singleton,
    Finset.mem_insert]
  tauto

theorem isAlreadyProcessed_concat_resolved (s : FACFState) (current : DefinedFunction)
    (q l : List DefinedFunction) (x : DefinedFunction) :
    isAlreadyProcessed { resolved := s.resolved ++ [current], unresolved := s.unresolved,
                         toProcess := q, enqueued := l } x
      = (isAlreadyProcessed s x || (current == x)) := by
  simp only [isAlreadyProcessed, List.any_append, List.any_cons, List.any_nil,
    Bool.or_false, Bool.false_or, Bool.or_assoc, Bool.or_comm, Bool.or_left_comm]

theorem isAlreadyProcessed_concat_unresolved (s : FACFState) (current : DefinedFunction)
    (q l : List DefinedFunction) (x : DefinedFunction) :
    isAlreadyProcessed { resolved := s.resolved, unresolved := s.unresolved ++ [current],
                         toProcess := q, enqueued := l } x
      = (isAlreadyProcessed s x || (current == x)) := by
  simp only [isAlreadyProcessed, List.any_append, List.any_cons, List.any_nil,
    Bool.or_false, Bool.false_or, Bool.or_assoc, Bool.or_comm, Bool.or_left_comm]

theorem isAlreadyProcessed_or_self {s : FACFState} {current : DefinedFunction}
    (hc : current ∈ processedList s) (x : DefinedFunction) :
    (isAlreadyProcessed s x || (current == x)) = isAlreadyProcessed s x := by
  cases hbe : (current == x) with
  | false => simp
  | true =>
    have hx : current = x := beq_iff_eq.mp hbe
    subst hx
    simp [isAlreadyProcessed_iff.mpr hc]

theorem measure2_concat_resolved (modules : List ParsedModule) (s : FACFState)
    (current : DefinedFunction) (rest newDeps l : List DefinedFunction)
    (hto : s.toProcess = current :: rest)
    (hcur : current ∈ processedList s)
    (hdeps : ∀ d ∈ newDeps, isAlreadyProcessed s d = false)
    (hk : newDeps.length ≤ maxDeps modules) :
    measure2 modules { resolved := s.resolved ++ [current], unresolved := s.unresolved,
                       toProcess := rest ++ newDeps, enqueued := l }
      < measure2 modules s := by
  have htrue : isAlreadyProcessed s current = true := isAlreadyProcessed_iff.mpr hcur
  have hpred : ∀ x, isAlreadyProcessed
      { resolved := s.resolved ++ [current], unresolved := s.unresolved,
        toProcess := rest ++ newDeps, enqueued := l } x = isAlreadyProcessed s x := by
    intro x
    rw [isAlreadyProcessed_concat_resolved]
    exact isAlreadyProcessed_or_self hcur x
  have hzero : newDeps.countP (fun x => isAlreadyProcessed s x) = 0 := by
    rw [List.countP_eq_zero]
    intro a ha
    simp [hdeps a ha]
  unfold measure2 comp2 comp3
  simp only [hpred, List.countP_append, List.length_append, hto, List.countP_cons,
    List.length_cons, htrue, hzero, if_true, Nat.add_zero, Nat.mul_add, Nat.mul_one]
  rw [Nat.add_assoc]
  apply Nat.add_lt_add_left
  omega

theorem measure2_concat_unresolved (modules : List ParsedModule) (s : FACFState)
    (current : DefinedFunction) (rest l : List DefinedFunction)
    (hto : s.toProcess = current :: rest)
    (hcur : current ∈ processedList s) :
    measure2 modules { resolved := s.resolved, unresolved := s.unresolved ++ [current],
                       toProcess := rest, enqueued := l }
      < measure2 modules s := by
  have htrue : isAlreadyProcessed s current = true := isAlreadyProcessed_iff.mpr hcur
  have hpred : ∀ x, isAlreadyProcessed
      { resolved := s.resolved, unresolved := s.unresolved ++ [current],
        toProcess := rest, enqueued := l } x = isAlreadyProcessed s x := by
    intro x
    rw [isAlreadyProcessed_concat_unresolved]
    exact isAlreadyProcessed_or_self hcur x
  unfold measure2 comp2 comp3
  simp only [hpred, hto, List.countP_cons, List.length_cons, htrue, if_true,
    Nat.mul_add, Nat.mul_one]
  rw [Nat.add_assoc]
  apply Nat.add_lt_add_left
  omega

theorem facf_dec_drop (modules : List ParsedModule) (entryPoint current : DefinedFunction)
    (rest : List DefinedFunction) (s : FACFState) (hto : s.toProcess = current :: rest)
    (h1 : StateInv modules s) (hm : lookupModule modules current = none) :
    comp1 modules entryPoint (facfStep modules current { s with toProcess := rest })
        = comp1 modules entryPoint s ∧
    measure2 modules (facfStep modules current { s with toProcess := rest })
        < measure2 modules s := by
  rw [facfStep_none _ hm]
  have hcur : current ∉ processedList s := by
    intro hc
    have hfound := h1 current hc
    rw [hm] at hfound
    simp at hfound
  have hfalse : isAlreadyProcessed s current = false := by
    rw [← Bool.not_eq_true]
    intro hc
    exact hcur (isAlreadyProcessed_iff.mp hc)
  refine ⟨comp1_set_toProcess _ _ _ _, ?_⟩
  unfold measure2 comp2 comp3
  rw [isAlreadyProcessed_set_toProcess]
  simp only [hto, List.countP_cons, List.length_cons, hfalse, if_false, Nat.add_zero]
  apply Nat.add_lt_add_left
  omega

theorem facf_dec_new (modules : List ParsedModule) (entryPoint current : DefinedFunction)
    (rest : List DefinedFunction) (s : FACFState) (hto : s.toProcess = current :: rest)
    (h2 : QueueInv modules entryPoint s)
    (hcur : current ∉ processedList s)
    {m : ParsedModule} (hm : lookupModule modules current = some m) :
    comp1 modules entryPoint (facfStep modules current { s with toProcess := rest })
        < comp1 modules entryPoint s := by
  have hU : current ∈ univFinset modules entryPoint :=
    h2 current (by rw [hto]; exact List.mem_cons_self _ _)
  have key : ∀ (t : FACFState),
      (processedList t).toFinset = insert current (processedList s).toFinset →
      comp1 modules entryPoint t < comp1 modules entryPoint s := by
    intro t ht
    unfold comp1
    rw [ht]
    have hsub : univFinset modules entryPoint \ insert current (processedList s).toFinset
        ⊆ univFinset modules entryPoint \ (processedList s).toFinset :=
      Finset.sdiff_subset_sdiff (Finset.Subset.refl _) (Finset.subset_insert _ _)
    refine Finset.card_lt_card ((Finset.ssubset_iff_of_subset hsub).mpr ?_)
    refine ⟨current, Finset.mem_sdiff.mpr ⟨hU, ?_⟩, ?_⟩
    · intro hc
      exact hcur (List.mem_toFinset.mp hc)
    · intro hc
      exact (Finset.mem_sdiff.mp hc).2 (Finset.mem_insert_self _ _)
  cases hn : lookupNode modules m current with
  | some fn2 =>
    rw [facfStep_resolved _ hm hn]
    exact key _ (procSet_concat_resolved { s with toProcess := rest } current _ _)
  | none =>
    rw [facfStep_unresolved _ hm hn]
    exact key _ (procSet_concat_unresolved { s with toProcess := rest } current _ _)

theorem facf_dec_old (modules : List ParsedModule) (entryPoint current : DefinedFunction)
    (rest : List DefinedFunction) (s : FACFState) (hto : s.toProcess = current :: rest)
    (hcur : current ∈ processedList s)
    {m : ParsedModule} (hm : lookupModule modules current = some m) :
    comp1 modules entryPoint (facfStep modules current { s with toProcess := rest })
        = comp1 modules entryPoint s ∧
    measure2 modules (facfStep modules current { s with toProcess := rest })
        < measure2 modules s := by
  cases hn : lookupNode modules m current with
  | some fn2 =>
    rw [facfStep_resolved _ hm hn]
    constructor
    · unfold comp1
      rw [procSet_concat_resolved]
      have hps : (processedList { resolved := s.resolved, unresolved := s.unresolved, toProcess := rest, enqueued := s.enqueued }).toFinset = (processedList s).toFinset := rfl
      rw [hps]
      rw [Finset.insert_eq_self.mpr (List.mem_toFinset.mpr hcur)]
    · have hk : (fn2.calledFunctions.filter
          (fun d => !(isAlreadyProcessed { s with toProcess := rest } d))).length
          ≤ maxDeps modules :=
        le_trans (List.length_filter_le _ _)
          (node_calledFunctions_le_maxDeps (lookupNode_mem hm hn))
      have hdeps : ∀ d ∈ fn2.calledFunctions.filter
          (fun d => !(isAlreadyProcessed { s with toProcess := rest } d)),
          isAlreadyProcessed s d = false := by
        intro d hd
        have hflt := List.of_mem_filter hd
        rw [isAlreadyProcessed_set_toProcess] at hflt
        simpa using hflt
      exact measure2_concat_resolved modules s current rest _ _ hto hcur hdeps hk
  | none =>
    rw [facfStep_unresolved _ hm hn]
    constructor
    · unfold comp1
      rw [procSet_concat_unresolved]
      have hps : (processedList { resolved := s.resolved, unresolved := s.unresolved, toProcess := rest, enqueued := s.enqueued }).toFinset = (processedList s).toFinset := rfl
      rw [hps]
      rw [Finset.insert_eq_self.mpr (List.mem_toFinset.mpr hcur)]
    · exact measure2_concat_unresolved modules s current rest _ hto hcur

theorem facf_terminates_aux (modules : List ParsedModule) (entryPoint : DefinedFunction) :
    ∀ (a b : Nat) (s : FACFState), StateInv modules s → QueueInv modules entryPoint s →
      comp1 modules entryPoint s ≤ a → measure2 modules s ≤ b →
      ∃ (n : Nat) (s2 : FACFState), facfRun modules n s = some s2 := by
  intro a
  induction a with
  | zero =>
    intro b
    induction b with
    | zero =>
      intro s h1 h2 h3 h4
      have hc3 : comp3 s ≤ measure2 modules s := Nat.le_add_left _ _
      have hc3b : comp3 s = s.toProcess.length := rfl
      have hempty : s.toProcess = [] := List.length_eq_zero.mp (by omega)
      exact ⟨0, s, by unfold facfRun; rw [hempty]⟩
    | succ b ihb =>
      intro s h1 h2 h3 h4
      cases hto : s.toProcess with
      | nil => exact ⟨0, s, by unfold facfRun; rw [hto]⟩
      | cons current rest =>
        have hInv1 : StateInv modules
            (facfStep modules current { s with toProcess := rest }) :=
          facfStep_stateInv h1
        have hInv2 : QueueInv modules entryPoint
            (facfStep modules current { s with toProcess := rest }) := by
          apply facfStep_queueInv
          intro x hx
          exact h2 x (by rw [hto]; exact List.mem_cons_of_mem _ hx)
        by_cases hcur : current ∈ processedList s
        · have hfound := h1 current hcur
          cases hm : lookupModule modules current with
          | none => rw [hm] at hfound; simp at hfound
          | some m =>
            obtain ⟨hc1eq, hc2lt⟩ := facf_dec_old modules entryPoint current rest s hto hcur hm
            obtain ⟨n, s2, hn2⟩ := ihb _ hInv1 hInv2 (by omega) (by omega)
            exact ⟨n + 1, s2, by rw [facfRun, hto]; exact hn2⟩
        · cases hm : lookupModule modules current with
          | none =>
            obtain ⟨hc1eq, hc2lt⟩ := facf_dec_drop modules entryPoint current rest s hto h1 hm
            obtain ⟨n, s2, hn2⟩ := ihb _ hInv1 hInv2 (by omega) (by omega)
            exact ⟨n + 1, s2, by rw [facfRun, hto]; exact hn2⟩
          | some m =>
            have hlt := facf_dec_new modules entryPoint current rest s hto h2 hcur hm
            omega
  | succ a iha =>
    intro b
    induction b with
    | zero =>
      intro s h1 h2 h3 h4
      have hc3 : comp3 s ≤ measure2 modules s := Nat.le_add_left _ _
      have hc3b : comp3 s = s.toProcess.length := rfl
      have hempty : s.toProcess = [] := List.length_eq_zero.mp (by omega)
      exact ⟨0, s, by unfold facfRun; rw [hempty]⟩
    | succ b ihb =>
      intro s h1 h2 h3 h4
      cases hto : s.toProcess with
      | nil => exact ⟨0, s, by unfold facfRun; rw [hto]⟩
      | cons current rest =>
        have hInv1 : StateInv modules
            (facfStep modules current { s with toProcess := rest }) :=
          facfStep_stateInv h1
        have hInv2 : QueueInv modules entryPoint
            (facfStep modules current { s with toProcess := rest }) := by
          apply facfStep_queueInv
          intro x hx
          exact h2 x (by rw [hto]; exact List.mem_cons_of_mem _ hx)
        by_cases hcur : current ∈ processedList s
        · have hfound := h1 current hcur
          cases hm : lookupModule modules current with
          | none => rw [hm] at hfound; simp at hfound
          | some m =>
            obtain ⟨hc1eq, hc2lt⟩ := facf_dec_old modules entryPoint current rest s hto hcur hm
            obtain ⟨n, s2, hn2⟩ := ihb _ hInv1 hInv2 (by omega) (by omega)
            exact ⟨n + 1, s2, by rw [facfRun, hto]; exact hn2⟩
        · cases hm : lookupModule modules current with
          | none =>
            obtain ⟨hc1eq, hc2lt⟩ := facf_dec_drop modules entryPoint current rest s hto h1 hm
            obtain ⟨n, s2, hn2⟩ := ihb _ hInv1 hInv2 (by omega) (by omega)
            exact ⟨n + 1, s2, by rw [facfRun, hto]; exact hn2⟩
          | some m =>
            have hlt := facf_dec_new modules entryPoint current rest s hto h2 hcur hm
            obtain ⟨n, s2, hn2⟩ := iha
              (measure2 modules (facfStep modules current { s with toProcess := rest }))
              _ hInv1 hInv2 (by omega) le_rfl
            exact ⟨n + 1, s2, by rw [facfRun, hto]; exact hn2⟩

/-- C7 (amended): for every module list and entry point the worklist
traversal terminates — some fuel completes the run — even though a node can
be enqueued more than once (the "already enqueued" filter checks only the
classified union, not the worklist; see the counterexample).  Termination
holds because classification of a popped node is a pure function of the
module list: an unclassified pop shrinks the finite set of never-classified
universe elements, a classified duplicate pop enqueues only unclassified
dependencies while consuming one classified queue slot, and a pop with no
matching module shrinks the queue. -/
theorem c7_termination (modules : List ParsedModule) (entryPoint : DefinedFunction) :
    ∃ (n : Nat) (result : FunctionCalls),
      findAllCalledFunctions modules entryPoint n = some result := by
  have h1 : StateInv modules (initState entryPoint) := by
    intro x hx
    simp [initState, processedList] at hx
  have h2 : QueueInv modules entryPoint (initState entryPoint) := by
    intro x hx
    simp [initState] at hx
    subst hx
    exact Finset.mem_insert_self _ _
  obtain ⟨n, s2, hn⟩ := facf_terminates_aux modules entryPoint
    (comp1 modules entryPoint (initState entryPoint))
    (measure2 modules (initState entryPoint))
    (initState entryPoint) h1 h2 le_rfl le_rfl
  refine ⟨n, { resolvedFunctions := s2.resolved, unresolvedFunctions := s2.unresolved }, ?_⟩
  unfold findAllCalledFunctions
  rw [hn]
  rfl

/-- C7 (counterexample): with `main` calling `f` twice, `f` is pushed onto
the worklist twice (the filter tests only against the classified union), so
"each node is enqueued at most once" fails — the ghost `enqueued` log of the
completed run contains `f` twice, and `f` is classified twice. -/
theorem c7_counterexample :
    facfRun
      [{ filePath := "",
         importedModules := [],
         functionTree :=
           [{ fn := { name := "main", nspace := "", filePath := "" },
              calledFunctions := [{ name := "f", nspace := "", filePath := "" },
                                  { name := "f", nspace := "", filePath := "" }] },
            { fn := { name := "f", nspace := "", filePath := "" },
              calledFunctions := [] }] }]
      4 (initState defaultEntryPoint)
      = some { resolved := [{ name := "main", nspace := "", filePath := "" },
                            { name := "f", nspace := "", filePath := "" },
                            { name := "f", nspace := "", filePath := "" }],
               unresolved := [],
               toProcess := [],
               enqueued := [{ name := "main", nspace := "", filePath := "" },
                            { name := "f", nspace := "", filePath := "" },
                            { name := "f", nspace := "", filePath := "" }] } ∧
    List.count ({ name := "f", nspace := "", filePath := "" } : DefinedFunction)
      [({ name := "main", nspace := "", filePath := "" } : DefinedFunction),
       { name := "f", nspace := "", filePath := "" },
       { name := "f", nspace := "", filePath := "" }] = 2 := by
  refine ⟨by decide, by decide⟩
